import Mathlib

/-!
Verification of a Sudoku-as-graph-coloring solver.

The board is a 9x9 grid of integers (0 = empty).  Grids are modelled as
lists of rows of `Int` (Python lists of lists of ints).  Cell access uses
`List.getD`, which agrees with Python indexing on the in-range indices the
code actually uses.
-/

set_option maxRecDepth 4000

abbrev Grid := List (List Int)

/-- Read `grid[r][c]` (in-range everywhere the code reads). -/
def getCell (g : Grid) (r c : Nat) : Int := (g.getD r []).getD c 0

/-- Source `SudokuBoard.set_cell`: `self.grid[row][col] = value`. -/
def set_cell (g : Grid) (r c : Nat) (v : Int) : Grid :=
  g.set r ((g.getD r []).set c v)

/-- The grid is a 9x9 matrix. -/
def dims (g : Grid) : Prop := g.length = 9 ∧ ∀ row ∈ g, row.length = 9

instance (g : Grid) : Decidable (dims g) := by unfold dims; infer_instance

/- ### Basic list-update lemmas -/

theorem list_set_out {α : Type} (l : List α) (i : Nat) (a : α)
    (h : l.length ≤ i) : l.set i a = l := by
  induction l generalizing i with
  | nil => rfl
  | cons x xs ih =>
    cases i with
    | zero => simp at h
    | succ j => simp only [List.set]; rw [ih j (by simpa using h)]

theorem list_getD_set_ne {α : Type} (l : List α) (i j : Nat) (a : α) (d : α)
    (h : i ≠ j) : (l.set i a).getD j d = l.getD j d := by
  induction l generalizing i j with
  | nil => rfl
  | cons x xs ih =>
    cases i with
    | zero =>
      cases j with
      | zero => exact absurd rfl h
      | succ j2 => rfl
    | succ i2 =>
      cases j with
      | zero => rfl
      | succ j2 => simpa using ih i2 j2 (fun hc => h (by rw [hc]))

theorem list_getD_set_self {α : Type} (l : List α) (i : Nat) (a : α) (d : α)
    (h : i < l.length) : (l.set i a).getD i d = a := by
  induction l generalizing i with
  | nil => simp at h
  | cons x xs ih =>
    cases i with
    | zero => rfl
    | succ i2 => simpa using ih i2 (by simpa using h)

theorem list_set_getD_self {α : Type} (l : List α) (i : Nat) (d : α) :
    l.set i (l.getD i d) = l := by
  induction l generalizing i with
  | nil => rfl
  | cons x xs ih =>
    cases i with
    | zero => rfl
    | succ i2 => simpa using ih i2

theorem list_getD_out {α : Type} (l : List α) (i : Nat) (d : α)
    (h : l.length ≤ i) : l.getD i d = d := by
  induction l generalizing i with
  | nil => rfl
  | cons x xs ih =>
    cases i with
    | zero => simp at h
    | succ i2 => simpa using ih i2 (by simpa using h)

theorem list_mem_of_mem_set {α : Type} (l : List α) (i : Nat) (a x : α)
    (h : x ∈ l.set i a) : x ∈ l ∨ x = a := by
  induction l generalizing i with
  | nil => simp at h
  | cons y ys ih =>
    cases i with
    | zero =>
      rcases List.mem_cons.mp h with h1 | h1
      · right; exact h1
      · left; exact List.mem_cons_of_mem _ h1
    | succ i2 =>
      rcases List.mem_cons.mp h with h1 | h1
      · left; exact h1 ▸ List.mem_cons_self _ _
      · rcases ih i2 h1 with h2 | h2
        · left; exact List.mem_cons_of_mem _ h2
        · right; exact h2

/- ### Cell update lemmas -/

theorem set_cell_set_cell (g : Grid) (r c : Nat) (a b : Int) :
    set_cell (set_cell g r c a) r c b = set_cell g r c b := by
  unfold set_cell
  by_cases h : r < g.length
  · rw [list_getD_set_self _ _ _ _ h, List.set_set, List.set_set]
  · push_neg at h
    have h1 : g.set r ((g.getD r []).set c a) = g := list_set_out _ _ _ h
    rw [h1]

theorem set_cell_getCell_self (g : Grid) (r c : Nat) :
    set_cell g r c (getCell g r c) = g := by
  unfold set_cell getCell
  rw [list_set_getD_self, list_set_getD_self]

theorem getCell_set_cell_ne (g : Grid) (r c r2 c2 : Nat) (v : Int)
    (h : r ≠ r2 ∨ c ≠ c2) : getCell (set_cell g r c v) r2 c2 = getCell g r2 c2 := by
  unfold getCell set_cell
  rcases h with h | h
  · rw [list_getD_set_ne _ _ _ _ _ h]
  · by_cases hr : r = r2
    · subst hr
      by_cases hlen : r < g.length
      · rw [list_getD_set_self _ _ _ _ hlen, list_getD_set_ne _ _ _ _ _ h]
      · push_neg at hlen
        rw [list_set_out _ _ _ hlen]
    · rw [list_getD_set_ne _ _ _ _ _ hr]

theorem getCell_set_cell_self (g : Grid) (r c : Nat) (v : Int)
    (hg : dims g) (hr : r < 9) (hc : c < 9) :
    getCell (set_cell g r c v) r c = v := by
  unfold getCell set_cell
  have hrl : r < g.length := by rw [hg.1]; exact hr
  have hrow : (g.getD r []).length = 9 := by
    have : g.getD r [] ∈ g := by
      rw [List.getD_eq_getElem _ _ hrl]; exact List.getElem_mem hrl
    exact hg.2 _ this
  rw [list_getD_set_self _ _ _ _ hrl, list_getD_set_self]
  rw [hrow]; exact hc

theorem dims_set_cell (g : Grid) (r c : Nat) (v : Int) (hg : dims g) :
    dims (set_cell g r c v) := by
  by_cases hrl : r < g.length
  · constructor
    · rw [set_cell, List.length_set]; exact hg.1
    · intro row hrow
      rcases list_mem_of_mem_set _ _ _ _ hrow with h | h
      · exact hg.2 _ h
      · subst h
        rw [List.length_set]
        apply hg.2
        rw [List.getD_eq_getElem _ _ hrl]; exact List.getElem_mem hrl
  · push_neg at hrl
    rw [set_cell, list_set_out _ _ _ hrl]; exact hg

/- ### Board value queries (sudoku_board.py) -/

/-- Source `get_row_values`: the nonzero values of a row; empty for out-of-range rows. -/
def get_row_values (g : Grid) (row : Int) : List Int :=
  if 0 ≤ row ∧ row < 9 then
    (g.getD row.toNat []).filter (fun v => decide (v ≠ 0))
  else []

/-- Source `get_col_values`: the nonzero values of a column; empty for out-of-range columns. -/
def get_col_values (g : Grid) (col : Int) : List Int :=
  if 0 ≤ col ∧ col < 9 then
    (List.range 9).filterMap (fun r =>
      if getCell g r col.toNat ≠ 0 then some (getCell g r col.toNat) else none)
  else []

/-- Source `get_box_values`: the nonzero values of the 3x3 box containing the cell. -/
def get_box_values (g : Grid) (row col : Int) : List Int :=
  if 0 ≤ row ∧ row < 9 ∧ 0 ≤ col ∧ col < 9 then
    (List.range' (row.toNat / 3 * 3) 3).flatMap (fun r =>
      (List.range' (col.toNat / 3 * 3) 3).filterMap (fun c =>
        if getCell g r c ≠ 0 then some (getCell g r c) else none))
  else []

/-- Source `is_valid_placement`: range guards fail closed, then the value must be
absent from the row, the column and the box. -/
def is_valid_placement (g : Grid) (row col value : Int) : Bool :=
  if ¬ (0 ≤ row ∧ row < 9 ∧ 0 ≤ col ∧ col < 9) then false
  else if ¬ (1 ≤ value ∧ value ≤ 9) then false
  else if value ∈ get_row_values g row then false
  else if value ∈ get_col_values g col then false
  else if value ∈ get_box_values g row col then false
  else true

/-- Row-major list of the 81 cell coordinates, the scan order of `is_valid`. -/
def all_cells : List (Nat × Nat) :=
  (List.range 9).flatMap (fun r => (List.range 9).map (fun c => (r, c)))

/-- One pass of `is_valid`: each filled cell is temporarily cleared and its
value re-checked against the rest of the board; the final grid state is
returned alongside the verdict (the code mutates the grid in place and
restores it). -/
def is_valid_aux (g : Grid) : List (Nat × Nat) → Bool × Grid
  | [] => (true, g)
  | rc :: rest =>
    if getCell g rc.1 rc.2 ≠ 0 then
      if ¬ is_valid_placement (set_cell g rc.1 rc.2 0) (rc.1 : Int) (rc.2 : Int)
          (getCell g rc.1 rc.2) then
        (false, set_cell (set_cell g rc.1 rc.2 0) rc.1 rc.2 (getCell g rc.1 rc.2))
      else is_valid_aux (set_cell (set_cell g rc.1 rc.2 0) rc.1 rc.2 (getCell g rc.1 rc.2)) rest
    else is_valid_aux g rest

/-- Source `SudokuBoard.is_valid`. -/
def is_valid (g : Grid) : Bool := (is_valid_aux g all_cells).1

/-- The check `is_valid` performs at one cell, phrased against the original
grid (the grid is restored between cells). -/
def cell_check (g : Grid) (rc : Nat × Nat) : Bool :=
  if getCell g rc.1 rc.2 ≠ 0 then
    is_valid_placement (set_cell g rc.1 rc.2 0) (rc.1 : Int) (rc.2 : Int)
      (getCell g rc.1 rc.2)
  else true

theorem is_valid_aux_eq (g : Grid) (cells : List (Nat × Nat)) :
    is_valid_aux g cells = (cells.all (cell_check g), g) := by
  induction cells with
  | nil => rfl
  | cons rc rest ih =>
    rw [is_valid_aux, List.all_cons]
    have hrestore : set_cell (set_cell g rc.1 rc.2 0) rc.1 rc.2 (getCell g rc.1 rc.2) = g := by
      rw [set_cell_set_cell, set_cell_getCell_self]
    by_cases h0 : getCell g rc.1 rc.2 ≠ 0
    · rw [if_pos h0]
      by_cases hp : is_valid_placement (set_cell g rc.1 rc.2 0) (rc.1 : Int) (rc.2 : Int)
          (getCell g rc.1 rc.2) = true
      · rw [if_neg (not_not_intro hp), hrestore, ih]
        have hcc : cell_check g rc = true := by rw [cell_check, if_pos h0]; exact hp
        rw [hcc, Bool.true_and]
      · rw [if_pos hp, hrestore]
        have hcc : cell_check g rc = false := by
          rw [cell_check, if_pos h0]
          exact Bool.eq_false_iff.mpr hp
        rw [hcc, Bool.false_and]
    · rw [if_neg h0, ih]
      have hcc : cell_check g rc = true := by rw [cell_check, if_neg h0]
      rw [hcc, Bool.true_and]

theorem is_valid_eq_all (g : Grid) : is_valid g = all_cells.all (cell_check g) := by
  rw [is_valid, is_valid_aux_eq]

/- ### Loading (load_from_string) -/

theorem row_length (g : Grid) (hg : dims g) (r : Nat) (hr : r < 9) :
    (g.getD r []).length = 9 := by
  have hrl : r < g.length := by rw [hg.1]; exact hr
  apply hg.2
  rw [List.getD_eq_getElem _ _ hrl]
  exact List.getElem_mem hrl

theorem getCell_eq_row_getD (g : Grid) (r c : Nat) :
    getCell g r c = (g.getD r []).getD c 0 := rfl

theorem mem_get_row_values (g : Grid) (hg : dims g) (r : Nat) (hr : r < 9) (v : Int) :
    v ∈ get_row_values g (r : Int) ↔ v ≠ 0 ∧ ∃ c, c < 9 ∧ getCell g r c = v := by
  have hguard : (0 : Int) ≤ (r : Int) ∧ (r : Int) < 9 := by
    constructor
    · exact Int.natCast_nonneg r
    · exact_mod_cast hr
  have htn : ((r : Int)).toNat = r := Int.toNat_natCast r
  rw [get_row_values, if_pos hguard, htn]
  rw [List.mem_filter]
  constructor
  · rintro ⟨hmem, hnz⟩
    refine ⟨by simpa using hnz, ?_⟩
    rcases List.mem_iff_getElem.mp hmem with ⟨c, hcl, hcv⟩
    refine ⟨c, ?_, ?_⟩
    · rw [row_length g hg r hr] at hcl; exact hcl
    · rw [getCell_eq_row_getD, List.getD_eq_getElem _ _ hcl, hcv]
  · rintro ⟨hnz, c, hc, hcv⟩
    have hcl : c < (g.getD r []).length := by rw [row_length g hg r hr]; exact hc
    constructor
    · apply List.mem_iff_getElem.mpr
      refine ⟨c, hcl, ?_⟩
      rw [getCell_eq_row_getD, List.getD_eq_getElem _ _ hcl] at hcv
      exact hcv
    · simpa using hnz

theorem mem_get_col_values (g : Grid) (c : Nat) (hc : c < 9) (v : Int) :
    v ∈ get_col_values g (c : Int) ↔ v ≠ 0 ∧ ∃ r, r < 9 ∧ getCell g r c = v := by
  have hguard : (0 : Int) ≤ (c : Int) ∧ (c : Int) < 9 := by
    constructor
    · exact Int.natCast_nonneg c
    · exact_mod_cast hc
  have htn : ((c : Int)).toNat = c := Int.toNat_natCast c
  rw [get_col_values, if_pos hguard, htn]
  rw [List.mem_filterMap]
  constructor
  · rintro ⟨r, hrmem, hropt⟩
    have hr9 : r < 9 := List.mem_range.mp hrmem
    by_cases hnz : getCell g r c ≠ 0
    · rw [if_pos hnz] at hropt
      have hv : getCell g r c = v := Option.some_injective _ hropt
      exact ⟨hv ▸ hnz, r, hr9, hv⟩
    · rw [if_neg hnz] at hropt
      exact absurd hropt (Option.noConfusion)
  · rintro ⟨hnz, r, hr9, hrv⟩
    refine ⟨r, List.mem_range.mpr hr9, ?_⟩
    rw [if_pos (hrv ▸ hnz), hrv]

theorem mem_get_box_values (g : Grid) (r c : Nat) (hr : r < 9) (hc : c < 9) (v : Int) :
    v ∈ get_box_values g (r : Int) (c : Int) ↔
      v ≠ 0 ∧ ∃ r2 c2, r2 < 9 ∧ c2 < 9 ∧ r2 / 3 = r / 3 ∧ c2 / 3 = c / 3 ∧
        getCell g r2 c2 = v := by
  have hguard : (0 : Int) ≤ (r : Int) ∧ (r : Int) < 9 ∧ (0 : Int) ≤ (c : Int) ∧ (c : Int) < 9 := by
    refine ⟨Int.natCast_nonneg r, by exact_mod_cast hr, Int.natCast_nonneg c, by exact_mod_cast hc⟩
  rw [get_box_values, if_pos hguard, Int.toNat_natCast, Int.toNat_natCast]
  rw [List.mem_flatMap]
  constructor
  · rintro ⟨r2, hr2mem, hr2⟩
    rcases List.mem_filterMap.mp hr2 with ⟨c2, hc2mem, hopt⟩
    rw [List.mem_range'_1] at hr2mem hc2mem
    by_cases hnz : getCell g r2 c2 ≠ 0
    · rw [if_pos hnz] at hopt
      have hv : getCell g r2 c2 = v := Option.some_injective _ hopt
      refine ⟨hv ▸ hnz, r2, c2, by omega, by omega, by omega, by omega, hv⟩
    · rw [if_neg hnz] at hopt
      exact absurd hopt (Option.noConfusion)
  · rintro ⟨hnz, r2, c2, hr29, hc29, hrb, hcb, hv⟩
    refine ⟨r2, List.mem_range'_1.mpr (by omega), ?_⟩
    apply List.mem_filterMap.mpr
    refine ⟨c2, List.mem_range'_1.mpr (by omega), ?_⟩
    rw [if_pos (hv ▸ hnz), hv]

theorem mem_all_cells (rc : Nat × Nat) : rc ∈ all_cells ↔ rc.1 < 9 ∧ rc.2 < 9 := by
  rw [all_cells, List.mem_flatMap]
  constructor
  · rintro ⟨r, hrmem, hmap⟩
    rcases List.mem_map.mp hmap with ⟨c, hcmem, hpair⟩
    rw [← hpair]
    exact ⟨List.mem_range.mp hrmem, List.mem_range.mp hcmem⟩
  · rintro ⟨h1, h2⟩
    refine ⟨rc.1, List.mem_range.mpr h1, ?_⟩
    apply List.mem_map.mpr
    exact ⟨rc.2, List.mem_range.mpr h2, rfl⟩

/- ### Placement-check characterization -/

theorem is_valid_placement_out_of_range (g : Grid) (row col value : Int)
    (h : ¬ (0 ≤ row ∧ row < 9 ∧ 0 ≤ col ∧ col < 9)) :
    is_valid_placement g row col value = false := by
  rw [is_valid_placement, if_pos h]

theorem is_valid_placement_bad_value (g : Grid) (row col value : Int)
    (h : ¬ (1 ≤ value ∧ value ≤ 9)) :
    is_valid_placement g row col value = false := by
  rw [is_valid_placement]
  by_cases h1 : ¬ (0 ≤ row ∧ row < 9 ∧ 0 ≤ col ∧ col < 9)
  · rw [if_pos h1]
  · rw [if_neg h1, if_pos h]

theorem is_valid_placement_true_elim (g : Grid) (row col value : Int)
    (h : is_valid_placement g row col value = true) :
    (0 ≤ row ∧ row < 9 ∧ 0 ≤ col ∧ col < 9) ∧ (1 ≤ value ∧ value ≤ 9) ∧
    value ∉ get_row_values g row ∧ value ∉ get_col_values g col ∧
    value ∉ get_box_values g row col := by
  rw [is_valid_placement] at h
  split_ifs at h with h1 h2 h3 h4 h5
  · exact ⟨h1, h2, h3, h4, h5⟩

theorem is_valid_placement_true_intro (g : Grid) (row col value : Int)
    (h1 : 0 ≤ row ∧ row < 9 ∧ 0 ≤ col ∧ col < 9) (h2 : 1 ≤ value ∧ value ≤ 9)
    (h3 : value ∉ get_row_values g row) (h4 : value ∉ get_col_values g col)
    (h5 : value ∉ get_box_values g row col) :
    is_valid_placement g row col value = true := by
  rw [is_valid_placement, if_neg (not_not_intro h1), if_neg (not_not_intro h2),
    if_neg h3, if_neg h4, if_neg h5]

/-- Semantic reading of a passed placement check: the value occurs nowhere
in the row, the column, or the box. -/
theorem is_valid_placement_semantic (g : Grid) (hg : dims g) (r c : Nat)
    (hr : r < 9) (hc : c < 9) (v : Int) (hv : 1 ≤ v ∧ v ≤ 9) :
    is_valid_placement g (r : Int) (c : Int) v = true ↔
      (∀ c2, c2 < 9 → getCell g r c2 ≠ v) ∧
      (∀ r2, r2 < 9 → getCell g r2 c ≠ v) ∧
      (∀ r2, r2 < 9 → ∀ c2, c2 < 9 → r2 / 3 = r / 3 → c2 / 3 = c / 3 →
        getCell g r2 c2 ≠ v) := by
  have hv0 : v ≠ 0 := by omega
  have hg1 : (0 : Int) ≤ (r : Int) ∧ (r : Int) < 9 ∧ (0 : Int) ≤ (c : Int) ∧ (c : Int) < 9 := by
    refine ⟨Int.natCast_nonneg r, by exact_mod_cast hr, Int.natCast_nonneg c, by exact_mod_cast hc⟩
  constructor
  · intro h
    obtain ⟨-, -, hrow, hcol, hbox⟩ := is_valid_placement_true_elim _ _ _ _ h
    refine ⟨?_, ?_, ?_⟩
    · intro c2 hc2 hval
      exact hrow ((mem_get_row_values g hg r hr v).mpr ⟨hv0, c2, hc2, hval⟩)
    · intro r2 hr2 hval
      exact hcol ((mem_get_col_values g c hc v).mpr ⟨hv0, r2, hr2, hval⟩)
    · intro r2 hr2 c2 hc2 hrb hcb hval
      exact hbox ((mem_get_box_values g r c hr hc v).mpr ⟨hv0, r2, c2, hr2, hc2, hrb, hcb, hval⟩)
  · rintro ⟨hrow, hcol, hbox⟩
    apply is_valid_placement_true_intro g _ _ _ hg1 hv
    · intro hmem
      obtain ⟨-, c2, hc2, hval⟩ := (mem_get_row_values g hg r hr v).mp hmem
      exact hrow c2 hc2 hval
    · intro hmem
      obtain ⟨-, r2, hr2, hval⟩ := (mem_get_col_values g c hc v).mp hmem
      exact hcol r2 hr2 hval
    · intro hmem
      obtain ⟨-, r2, c2, hr2, hc2, hrb, hcb, hval⟩ := (mem_get_box_values g r c hr hc v).mp hmem
      exact hbox r2 hr2 c2 hc2 hrb hcb hval

/- ### Conflict-freedom -/

/-- Two distinct cells share a Sudoku unit (row, column or 3x3 box). -/
def same_unit (r1 c1 r2 c2 : Nat) : Prop :=
  r1 = r2 ∨ c1 = c2 ∨ (r1 / 3 = r2 / 3 ∧ c1 / 3 = c2 / 3)

instance (r1 c1 r2 c2 : Nat) : Decidable (same_unit r1 c1 r2 c2) := by
  unfold same_unit; infer_instance

/-- No two distinct cells of a shared unit hold the same nonzero value. -/
def good (g : Grid) : Prop :=
  ∀ r1 c1 r2 c2, r1 < 9 → c1 < 9 → r2 < 9 → c2 < 9 → ¬ (r1 = r2 ∧ c1 = c2) →
    same_unit r1 c1 r2 c2 → getCell g r1 c1 ≠ 0 →
    getCell g r1 c1 ≠ getCell g r2 c2

/-- A pair of pre-filled cells that already conflict. -/
def has_conflict (g : Grid) : Prop :=
  ∃ r1 c1 r2 c2, r1 < 9 ∧ c1 < 9 ∧ r2 < 9 ∧ c2 < 9 ∧ ¬ (r1 = r2 ∧ c1 = c2) ∧
    same_unit r1 c1 r2 c2 ∧ getCell g r1 c1 ≠ 0 ∧
    getCell g r1 c1 = getCell g r2 c2

theorem not_good_of_has_conflict (g : Grid) (h : has_conflict g) : ¬ good g := by
  obtain ⟨r1, c1, r2, c2, h1, h2, h3, h4, h5, h6, h7, h8⟩ := h
  intro hgood
  exact hgood r1 c1 r2 c2 h1 h2 h3 h4 h5 h6 h7 h8

/-- If the scan of `is_valid` succeeds, the board is conflict-free. -/
theorem good_of_is_valid (g : Grid) (hg : dims g) (hv : is_valid g = true) :
    good g := by
  intro r1 c1 r2 c2 hr1 hc1 hr2 hc2 hne hunit hnz heq
  have hall := is_valid_eq_all g ▸ hv
  have hcheck : cell_check g (r1, c1) = true := by
    refine List.all_eq_true.mp hall (r1, c1) ?_
    exact (mem_all_cells (r1, c1)).mpr ⟨hr1, hc1⟩
  rw [cell_check] at hcheck
  simp only [] at hcheck
  rw [if_pos hnz] at hcheck
  obtain ⟨-, hv19, hrow, hcol, hbox⟩ := is_valid_placement_true_elim _ _ _ _ hcheck
  have hnepair : r1 ≠ r2 ∨ c1 ≠ c2 := by tauto
  have hcleared : getCell (set_cell g r1 c1 0) r2 c2 = getCell g r1 c1 := by
    rw [getCell_set_cell_ne g r1 c1 r2 c2 0 hnepair]
    exact heq.symm
  have hdims2 : dims (set_cell g r1 c1 0) := dims_set_cell g r1 c1 0 hg
  rcases hunit with h | h | h
  · subst h
    apply hrow
    apply (mem_get_row_values _ hdims2 r1 hr1 _).mpr
    exact ⟨hnz, c2, hc2, hcleared⟩
  · subst h
    apply hcol
    apply (mem_get_col_values _ c1 hc1 _).mpr
    exact ⟨hnz, r2, hr2, hcleared⟩
  · apply hbox
    apply (mem_get_box_values _ r1 c1 hr1 hc1 _).mpr
    exact ⟨hnz, r2, c2, hr2, hc2, h.1.symm, h.2.symm, hcleared⟩

/- ### Claim C5: placement check fails closed, otherwise exact absence test -/

/-- C5: `is_valid_placement(row, col, value)` returns false whenever `row` or
`col` is outside `[0,9)` or `value` is outside `[1,9]`; otherwise it returns
true iff the value appears in none of the cell's row, column or 3x3 box. -/
theorem C5_is_valid_placement_spec (g : Grid) (row col value : Int) (hg : dims g) :
    (¬ (0 ≤ row ∧ row < 9 ∧ 0 ≤ col ∧ col < 9 ∧ 1 ≤ value ∧ value ≤ 9) →
      is_valid_placement g row col value = false) ∧
    ((0 ≤ row ∧ row < 9 ∧ 0 ≤ col ∧ col < 9 ∧ 1 ≤ value ∧ value ≤ 9) →
      (is_valid_placement g row col value = true ↔
        (∀ c2, c2 < 9 → getCell g row.toNat c2 ≠ value) ∧
        (∀ r2, r2 < 9 → getCell g r2 col.toNat ≠ value) ∧
        (∀ r2, r2 < 9 → ∀ c2, c2 < 9 → r2 / 3 = row.toNat / 3 → c2 / 3 = col.toNat / 3 →
          getCell g r2 c2 ≠ value))) := by
  constructor
  · intro h
    by_cases h1 : 0 ≤ row ∧ row < 9 ∧ 0 ≤ col ∧ col < 9
    · apply is_valid_placement_bad_value
      tauto
    · exact is_valid_placement_out_of_range g row col value h1
  · rintro ⟨hr0, hr9, hc0, hc9, hv1, hv9⟩
    have hrn : row = ((row.toNat : Nat) : Int) := (Int.toNat_of_nonneg hr0).symm
    have hcn : col = ((col.toNat : Nat) : Int) := (Int.toNat_of_nonneg hc0).symm
    have hr : row.toNat < 9 := by omega
    have hc : col.toNat < 9 := by omega
    rw [hrn, hcn]
    rw [Int.toNat_natCast, Int.toNat_natCast]
    exact is_valid_placement_semantic g hg row.toNat col.toNat hr hc value ⟨hv1, hv9⟩

/-- C5 witness: on the empty board, placing 5 at (0,0) is accepted. -/
theorem C5_witness :
    is_valid_placement (List.replicate 9 (List.replicate 9 (0 : Int))) 0 0 5 = true :=
  ((C5_is_valid_placement_spec (List.replicate 9 (List.replicate 9 (0 : Int))) 0 0 5
      (by decide)).2 (by decide)).mpr (by decide)

/- ### Claim C6: is_valid restores the grid -/

/-- C6: `is_valid()` returns its verdict and leaves the grid exactly as it
was: every temporarily cleared cell is restored before the method returns,
whether the result is true or false. -/
theorem C6_is_valid_preserves_grid (g : Grid) :
    is_valid_aux g all_cells = (is_valid g, g) := by
  rw [is_valid_aux_eq, is_valid_eq_all]

/- ### Claim C8: loading never fails and always yields a 9x9 grid -/

/-- Source `is_complete`: every cell is filled. -/
def is_complete (g : Grid) : Bool :=
  (List.range 9).all (fun r => (List.range 9).all (fun c => decide (getCell g r c ≠ 0)))

/-- Source `find_next_empty_cell`: first empty cell in row-major scan order. -/
def find_next_empty_cell (g : Grid) : Option (Nat × Nat) :=
  all_cells.find? (fun rc => decide (getCell g rc.1 rc.2 = 0))

/-- The ascending candidate values `range(1, 10)` of `backtrack_solve`. -/
def candidate_values : List Int := (List.range 9).map (fun k => (k : Int) + 1)

/-- The value loop of `backtrack_solve` at empty cell `(r, c)`: place each
valid value, recurse through `bt`, and clear the cell again on failure.  The
mutated grid state is threaded through; the last component counts the nodes
explored by the recursive calls. -/
def try_values (bt : Grid → Bool × Grid × Nat) (r c : Nat) (g : Grid) :
    List Int → Bool × Grid × Nat
  | [] => (false, g, 0)
  | v :: vs =>
    if is_valid_placement g (r : Int) (c : Int) v then
      let res := bt (set_cell g r c v)
      if res.1 then res
      else
        let rest := try_values bt r c (set_cell res.2.1 r c 0) vs
        (rest.1, rest.2.1, res.2.2 + rest.2.2)
    else try_values bt r c g vs

/-- Source `backtrack_solve` with an explicit recursion budget: each level
fills one empty cell and the completion check needs one more level, so a
budget of 82 covers every board, including the all-empty one.  Returns
(success, final grid, nodes explored). -/
def backtrack_solve : Nat → Grid → Bool × Grid × Nat
  | 0, g => (false, g, 0)
  | fuel + 1, g =>
    match find_next_empty_cell g with
    | none => (true, g, 0)
    | some rc =>
      let t := try_values (backtrack_solve fuel) rc.1 rc.2 g candidate_values
      (t.1, t.2.1, t.2.2 + 1)

/-- Source `SimpleSudokuSolver.solve`: counters reset, validity pre-check, then
plain backtracking.  Returns (success, final board, nodes_explored). -/
def simple_solver_solve (g : Grid) : Bool × Grid × Nat :=
  if is_valid g then backtrack_solve 82 g else (false, g, 0)

theorem backtrack_solve_succ (fuel : Nat) (g : Grid) :
    backtrack_solve (fuel + 1) g =
      match find_next_empty_cell g with
      | none => (true, g, 0)
      | some rc =>
        ((try_values (backtrack_solve fuel) rc.1 rc.2 g candidate_values).1,
         (try_values (backtrack_solve fuel) rc.1 rc.2 g candidate_values).2.1,
         (try_values (backtrack_solve fuel) rc.1 rc.2 g candidate_values).2.2 + 1) := by
  rw [backtrack_solve]

/- ### Restoration: a failed search leaves the grid as it was -/

theorem try_values_restore (bt : Grid → Bool × Grid × Nat) (r c : Nat)
    (hbt : ∀ g0, (bt g0).1 = false → (bt g0).2.1 = g0) :
    ∀ (vs : List Int) (g : Grid), getCell g r c = 0 →
      (try_values bt r c g vs).1 = false → (try_values bt r c g vs).2.1 = g := by
  intro vs
  induction vs with
  | nil => intro g h0 hf; rfl
  | cons v vs ih =>
    intro g h0 hf
    rw [try_values] at hf ⊢
    by_cases hp : is_valid_placement g (r : Int) (c : Int) v = true
    · rw [if_pos hp] at hf ⊢
      simp only [] at hf ⊢
      by_cases hok : (bt (set_cell g r c v)).1 = true
      · rw [if_pos hok] at hf
        exact absurd hf (by rw [hok]; simp)
      · have hokf : (bt (set_cell g r c v)).1 = false := Bool.eq_false_iff.mpr hok
        rw [if_neg hok] at hf ⊢
        have hg2 : (bt (set_cell g r c v)).2.1 = set_cell g r c v := hbt _ hokf
        have hback : set_cell (bt (set_cell g r c v)).2.1 r c 0 = g := by
          rw [hg2, set_cell_set_cell, ← h0, set_cell_getCell_self]
        simp only [] at hf ⊢
        rw [hback] at hf ⊢
        exact ih g h0 hf
    · rw [if_neg hp] at hf ⊢
      exact ih g h0 hf

theorem backtrack_solve_restore (fuel : Nat) :
    ∀ g, (backtrack_solve fuel g).1 = false → (backtrack_solve fuel g).2.1 = g := by
  induction fuel with
  | zero => intro g h; rfl
  | succ fuel ih =>
    intro g h
    rw [backtrack_solve_succ] at h ⊢
    cases hfind : find_next_empty_cell g with
    | none =>
      rw [hfind] at h
    | some rc =>
      rw [hfind] at h
      have hempty : getCell g rc.1 rc.2 = 0 := by
        have := List.find?_some hfind
        simpa using this
      exact try_values_restore (backtrack_solve fuel) rc.1 rc.2 ih candidate_values g hempty h

/- ### Clue preservation: the search only writes cells it found empty -/

theorem try_values_preserve (bt : Grid → Bool × Grid × Nat) (r c : Nat)
    (hbt_restore : ∀ g0, (bt g0).1 = false → (bt g0).2.1 = g0)
    (hbt_preserve : ∀ g0, (bt g0).1 = true → ∀ r2 c2, getCell g0 r2 c2 ≠ 0 →
      getCell (bt g0).2.1 r2 c2 = getCell g0 r2 c2) :
    ∀ (vs : List Int) (g : Grid), getCell g r c = 0 →
      (try_values bt r c g vs).1 = true → ∀ r2 c2, getCell g r2 c2 ≠ 0 →
        getCell (try_values bt r c g vs).2.1 r2 c2 = getCell g r2 c2 := by
  intro vs
  induction vs with
  | nil =>
    intro g h0 ht
    exact Bool.noConfusion ht
  | cons v vs ih =>
    intro g h0 ht r2 c2 hnz
    rw [try_values] at ht ⊢
    by_cases hp : is_valid_placement g (r : Int) (c : Int) v = true
    · rw [if_pos hp] at ht ⊢
      simp only [] at ht ⊢
      by_cases hok : (bt (set_cell g r c v)).1 = true
      · rw [if_pos hok] at ht ⊢
        have hnepair : r ≠ r2 ∨ c ≠ c2 := by
          by_contra hcon
          push_neg at hcon
          rw [← hcon.1, ← hcon.2, h0] at hnz
          exact hnz rfl
        have hset : getCell (set_cell g r c v) r2 c2 = getCell g r2 c2 :=
          getCell_set_cell_ne g r c r2 c2 v hnepair
        have := hbt_preserve (set_cell g r c v) hok r2 c2 (by rw [hset]; exact hnz)
        rw [this, hset]
      · have hokf : (bt (set_cell g r c v)).1 = false := Bool.eq_false_iff.mpr hok
        rw [if_neg hok] at ht ⊢
        have hback : set_cell (bt (set_cell g r c v)).2.1 r c 0 = g := by
          rw [hbt_restore _ hokf, set_cell_set_cell, ← h0, set_cell_getCell_self]
        simp only [] at ht ⊢
        rw [hback] at ht ⊢
        exact ih g h0 ht r2 c2 hnz
    · rw [if_neg hp] at ht ⊢
      exact ih g h0 ht r2 c2 hnz

theorem backtrack_solve_preserve (fuel : Nat) :
    ∀ g, (backtrack_solve fuel g).1 = true → ∀ r2 c2, getCell g r2 c2 ≠ 0 →
      getCell (backtrack_solve fuel g).2.1 r2 c2 = getCell g r2 c2 := by
  induction fuel with
  | zero =>
    intro g h
    exact Bool.noConfusion h
  | succ fuel ih =>
    intro g h r2 c2 hnz
    rw [backtrack_solve_succ] at h ⊢
    cases hfind : find_next_empty_cell g with
    | none => rfl
    | some rc =>
      rw [hfind] at h
      have hempty : getCell g rc.1 rc.2 = 0 := by
        have := List.find?_some hfind
        simpa using this
      exact try_values_preserve (backtrack_solve fuel) rc.1 rc.2
        (backtrack_solve_restore fuel) ih candidate_values g hempty h r2 c2 hnz

/- ### Claim C10: the simple solver never touches a pre-filled cell -/

/-- C10: every cell that is nonzero when `SimpleSudokuSolver.solve` is
called holds the same value when it returns, whether the search succeeds or
fails: only cells found empty are ever assigned or cleared. -/
theorem C10_simple_preserves_clues (g : Grid) (r c : Nat)
    (h : getCell g r c ≠ 0) :
    getCell (simple_solver_solve g).2.1 r c = getCell g r c := by
  rw [simple_solver_solve]
  by_cases hv : is_valid g = true
  · rw [if_pos hv]
    by_cases hok : (backtrack_solve 82 g).1 = true
    · exact backtrack_solve_preserve 82 g hok r c h
    · rw [backtrack_solve_restore 82 g (Bool.eq_false_iff.mpr hok)]
  · rw [if_neg hv]

/-- A complete valid Sudoku grid (the cyclic pattern). -/
def full_board : Grid :=
  [[1,2,3,4,5,6,7,8,9],
   [4,5,6,7,8,9,1,2,3],
   [7,8,9,1,2,3,4,5,6],
   [2,3,4,5,6,7,8,9,1],
   [5,6,7,8,9,1,2,3,4],
   [8,9,1,2,3,4,5,6,7],
   [3,4,5,6,7,8,9,1,2],
   [6,7,8,9,1,2,3,4,5],
   [9,1,2,3,4,5,6,7,8]]

/-- The grid of `full_board` with its last cell blanked: a one-step puzzle. -/
def one_blank_board : Grid := set_cell full_board 8 8 0

/-- C10 witness: solving the one-blank puzzle leaves the clue at (0,0). -/
theorem C10_witness : getCell (simple_solver_solve one_blank_board).2.1 0 0 = 1 :=
  (C10_simple_preserves_clues one_blank_board 0 0 (by decide)).trans (by decide)

/- ### A valid placement preserves conflict-freedom -/

theorem good_set_cell (g : Grid) (hg : dims g) (r c : Nat) (hr : r < 9) (hc : c < 9)
    (h0 : getCell g r c = 0) (v : Int)
    (hp : is_valid_placement g (r : Int) (c : Int) v = true)
    (hgood : good g) : good (set_cell g r c v) := by
  obtain ⟨-, hv19, -, -, -⟩ := is_valid_placement_true_elim _ _ _ _ hp
  obtain ⟨hprow, hpcol, hpbox⟩ := (is_valid_placement_semantic g hg r c hr hc v hv19).mp hp
  have habsent : ∀ r2 c2, r2 < 9 → c2 < 9 → same_unit r c r2 c2 →
      getCell g r2 c2 ≠ v := by
    intro r2 c2 hr2 hc2 hunit
    rcases hunit with h | h | h
    · exact h ▸ hprow c2 hc2
    · exact h ▸ hpcol r2 hr2
    · exact hpbox r2 hr2 c2 hc2 h.1.symm h.2.symm
  intro r1 c1 r2 c2 hr1 hc1 hr2 hc2 hne hunit hnz
  by_cases e1 : r1 = r ∧ c1 = c
  · obtain ⟨er, ec⟩ := e1
    subst er; subst ec
    have hne2 : r1 ≠ r2 ∨ c1 ≠ c2 := not_and_or.mp hne
    rw [getCell_set_cell_self g r1 c1 v hg hr1 hc1]
    rw [getCell_set_cell_ne g r1 c1 r2 c2 v hne2]
    intro heq
    exact habsent r2 c2 hr2 hc2 hunit heq.symm
  · have hne1 : r1 ≠ r ∨ c1 ≠ c := not_and_or.mp e1
    have hne1b : r ≠ r1 ∨ c ≠ c1 := hne1.imp Ne.symm Ne.symm
    rw [getCell_set_cell_ne g r c r1 c1 v hne1b] at hnz ⊢
    by_cases e2 : r2 = r ∧ c2 = c
    · obtain ⟨er, ec⟩ := e2
      subst er; subst ec
      rw [getCell_set_cell_self g r2 c2 v hg hr2 hc2]
      have hunit2 : same_unit r2 c2 r1 c1 := by
        rcases hunit with h | h | h
        · exact Or.inl h.symm
        · exact Or.inr (Or.inl h.symm)
        · exact Or.inr (Or.inr ⟨h.1.symm, h.2.symm⟩)
      exact habsent r1 c1 hr1 hc1 hunit2
    · have hne2b : r ≠ r2 ∨ c ≠ c2 := (not_and_or.mp e2).imp Ne.symm Ne.symm
      rw [getCell_set_cell_ne g r c r2 c2 v hne2b]
      exact hgood r1 c1 r2 c2 hr1 hc1 hr2 hc2 hne hunit hnz

/- ### The search keeps the board conflict-free and ends complete -/

theorem try_values_good (bt : Grid → Bool × Grid × Nat) (r c : Nat)
    (hr : r < 9) (hc : c < 9)
    (hbt_restore : ∀ g0, (bt g0).1 = false → (bt g0).2.1 = g0)
    (hbt_good : ∀ g0, dims g0 → good g0 → (bt g0).1 = true →
      dims (bt g0).2.1 ∧ good (bt g0).2.1 ∧ find_next_empty_cell (bt g0).2.1 = none) :
    ∀ (vs : List Int) (g : Grid), dims g → good g → getCell g r c = 0 →
      (try_values bt r c g vs).1 = true →
      dims (try_values bt r c g vs).2.1 ∧ good (try_values bt r c g vs).2.1 ∧
        find_next_empty_cell (try_values bt r c g vs).2.1 = none := by
  intro vs
  induction vs with
  | nil =>
    intro g hd hgood h0 ht
    exact Bool.noConfusion ht
  | cons v vs ih =>
    intro g hd hgood h0 ht
    rw [try_values] at ht ⊢
    by_cases hp : is_valid_placement g (r : Int) (c : Int) v = true
    · rw [if_pos hp] at ht ⊢
      simp only [] at ht ⊢
      by_cases hok : (bt (set_cell g r c v)).1 = true
      · rw [if_pos hok] at ht ⊢
        exact hbt_good (set_cell g r c v) (dims_set_cell g r c v hd)
          (good_set_cell g hd r c hr hc h0 v hp hgood) hok
      · have hokf : (bt (set_cell g r c v)).1 = false := Bool.eq_false_iff.mpr hok
        rw [if_neg hok] at ht ⊢
        have hback : set_cell (bt (set_cell g r c v)).2.1 r c 0 = g := by
          rw [hbt_restore _ hokf, set_cell_set_cell, ← h0, set_cell_getCell_self]
        simp only [] at ht ⊢
        rw [hback] at ht ⊢
        exact ih g hd hgood h0 ht
    · rw [if_neg hp] at ht ⊢
      exact ih g hd hgood h0 ht

theorem backtrack_solve_good (fuel : Nat) :
    ∀ g, dims g → good g → (backtrack_solve fuel g).1 = true →
      dims (backtrack_solve fuel g).2.1 ∧ good (backtrack_solve fuel g).2.1 ∧
        find_next_empty_cell (backtrack_solve fuel g).2.1 = none := by
  induction fuel with
  | zero =>
    intro g hd hgood h
    exact Bool.noConfusion h
  | succ fuel ih =>
    intro g hd hgood h
    rw [backtrack_solve_succ] at h ⊢
    cases hfind : find_next_empty_cell g with
    | none => exact ⟨hd, hgood, hfind⟩
    | some rc =>
      rw [hfind] at h
      have hmem : rc ∈ all_cells := List.mem_of_find?_eq_some hfind
      have hbounds := (mem_all_cells rc).mp hmem
      have hempty : getCell g rc.1 rc.2 = 0 := by
        have := List.find?_some hfind
        simpa using this
      exact try_values_good (backtrack_solve fuel) rc.1 rc.2 hbounds.1 hbounds.2
        (backtrack_solve_restore fuel) ih candidate_values g hd hgood hempty h

/- ### Exactly-once counting -/

theorem list_countP_eq_one {α : Type} (l : List α) (p : α → Bool) (a : α)
    (hnodup : l.Nodup) (hmem : a ∈ l) (hpa : p a = true)
    (huniq : ∀ b ∈ l, p b = true → b = a) : l.countP p = 1 := by
  induction l with
  | nil => simp at hmem
  | cons x t ih =>
    rw [List.nodup_cons] at hnodup
    rcases List.mem_cons.mp hmem with he | ht
    · subst he
      rw [List.countP_cons_of_pos _ _ hpa]
      have ht0 : t.countP p = 0 := by
        rw [List.countP_eq_zero]
        intro b hb hpb
        have hba := huniq b (List.mem_cons_of_mem _ hb) hpb
        exact absurd hb (hba ▸ hnodup.1)
      rw [ht0]
    · have hxa : x ≠ a := fun he2 => hnodup.1 (he2 ▸ ht)
      have hpx : ¬ p x = true := by
        intro hpx
        exact hxa (huniq x (List.mem_cons_self x t) hpx)
      rw [List.countP_cons_of_neg _ _ hpx]
      exact ih hnodup.2 ht (fun b hb hpb => huniq b (List.mem_cons_of_mem _ hb) hpb)

theorem all_cells_nodup : all_cells.Nodup := by decide

/-- The value at `(r, c)` appears exactly once in its row, its column and
its 3x3 box. -/
def value_exactly_once (g : Grid) (r c : Nat) : Prop :=
  ((List.range 9).countP (fun c2 => decide (getCell g r c2 = getCell g r c)) = 1) ∧
  ((List.range 9).countP (fun r2 => decide (getCell g r2 c = getCell g r c)) = 1) ∧
  (all_cells.countP (fun rc => decide (rc.1 / 3 = r / 3 ∧ rc.2 / 3 = c / 3 ∧
    getCell g rc.1 rc.2 = getCell g r c)) = 1)

theorem good_complete_exactly_once (g : Grid) (hgood : good g)
    (hfill : ∀ r2 c2, r2 < 9 → c2 < 9 → getCell g r2 c2 ≠ 0)
    (r c : Nat) (hr : r < 9) (hc : c < 9) : value_exactly_once g r c := by
  refine ⟨?_, ?_, ?_⟩
  · apply list_countP_eq_one _ _ c (List.nodup_range 9) (List.mem_range.mpr hc)
    · simp
    · intro c2 hc2 hp
      have h2 : c2 < 9 := List.mem_range.mp hc2
      have heq : getCell g r c2 = getCell g r c := by simpa using hp
      by_contra hne2
      exact hgood r c2 r c hr h2 hr hc (fun hand => hne2 hand.2) (Or.inl rfl)
        (hfill r c2 hr h2) heq
  · apply list_countP_eq_one _ _ r (List.nodup_range 9) (List.mem_range.mpr hr)
    · simp
    · intro r2 hr2 hp
      have h2 : r2 < 9 := List.mem_range.mp hr2
      have heq : getCell g r2 c = getCell g r c := by simpa using hp
      by_contra hne2
      exact hgood r2 c r c h2 hc hr hc (fun hand => hne2 hand.1) (Or.inr (Or.inl rfl))
        (hfill r2 c h2 hc) heq
  · apply list_countP_eq_one _ _ (r, c) all_cells_nodup
      ((mem_all_cells (r, c)).mpr ⟨hr, hc⟩)
    · simp
    · intro b hb hpb
      obtain ⟨hb1, hb2⟩ := (mem_all_cells b).mp hb
      obtain ⟨hbr, hbc, hbv⟩ : b.1 / 3 = r / 3 ∧ b.2 / 3 = c / 3 ∧
          getCell g b.1 b.2 = getCell g r c := by simpa using hpb
      by_contra hneq
      have hne2 : ¬ (b.1 = r ∧ b.2 = c) := by
        intro hand
        exact hneq (Prod.ext hand.1 hand.2)
      exact hgood b.1 b.2 r c hb1 hb2 hr hc hne2 (Or.inr (Or.inr ⟨hbr, hbc⟩))
        (hfill b.1 b.2 hb1 hb2) hbv

/- ### Correctness of the simple solver on success -/

theorem find_none_filled (g : Grid) (h : find_next_empty_cell g = none) :
    ∀ r c, r < 9 → c < 9 → getCell g r c ≠ 0 := by
  intro r c hr hc
  have := List.find?_eq_none.mp h (r, c) ((mem_all_cells (r, c)).mpr ⟨hr, hc⟩)
  simpa using this

theorem simple_solve_correct (g : Grid) (hg : dims g)
    (hs : (simple_solver_solve g).1 = true) :
    (∀ r c, r < 9 → c < 9 → getCell (simple_solver_solve g).2.1 r c ≠ 0) ∧
    ∀ r c, r < 9 → c < 9 → value_exactly_once (simple_solver_solve g).2.1 r c := by
  rw [simple_solver_solve] at hs ⊢
  by_cases hv : is_valid g = true
  · rw [if_pos hv] at hs ⊢
    obtain ⟨hd2, hgood2, hfind2⟩ :=
      backtrack_solve_good 82 g hg (good_of_is_valid g hg hv) hs
    have hfill := find_none_filled _ hfind2
    exact ⟨hfill, fun r c hr hc => good_complete_exactly_once _ hgood2 hfill r c hr hc⟩
  · rw [if_neg hv] at hs
    exact Bool.noConfusion hs

/- ### The constraint graph (SudokuBoard.to_graph, graph.py) -/

/-- The `(src, dest)` pairs passed to `add_edge` by `to_graph`, in loop
order: for each cell, its row mates, column mates and box mates. -/
def to_graph_edges : List (Nat × Nat) :=
  (List.range 9).flatMap (fun row =>
    (List.range 9).flatMap (fun col =>
      ((List.range 9).filterMap (fun c =>
        if c ≠ col then some (row * 9 + col, row * 9 + c) else none)) ++
      ((List.range 9).filterMap (fun r =>
        if r ≠ row then some (row * 9 + col, r * 9 + col) else none)) ++
      ((List.range' (row / 3 * 3) 3).flatMap (fun r =>
        (List.range' (col / 3 * 3) 3).filterMap (fun c =>
          if r ≠ row ∨ c ≠ col then some (row * 9 + col, r * 9 + c) else none)))))

/-- Source `Node.add_neighbor`: record `b` as a neighbor of `a`. -/
def add_nbr (f : Nat → Finset Nat) (a b : Nat) : Nat → Finset Nat :=
  fun n => if n = a then insert b (f a) else f n

/-- Source `Graph.add_edge`: symmetric neighbor insertion on both endpoints. -/
def add_edge_f (f : Nat → Finset Nat) (e : Nat × Nat) : Nat → Finset Nat :=
  add_nbr (add_nbr f e.1 e.2) e.2 e.1

/-- Neighbor sets of the constraint graph built by `to_graph`. -/
def sudoku_nbrs : Nat → Finset Nat :=
  to_graph_edges.foldl add_edge_f (fun _ => ∅)

theorem mem_add_nbr (f : Nat → Finset Nat) (a b n j : Nat) :
    j ∈ add_nbr f a b n ↔ (n = a ∧ j = b) ∨ j ∈ f n := by
  unfold add_nbr
  by_cases h : n = a
  · subst h
    rw [if_pos rfl, Finset.mem_insert]
    constructor
    · rintro (h | h)
      · exact Or.inl ⟨rfl, h⟩
      · exact Or.inr h
    · rintro (⟨-, h⟩ | h)
      · exact Or.inl h
      · exact Or.inr h
  · rw [if_neg h]
    constructor
    · exact fun h2 => Or.inr h2
    · rintro (⟨h1, -⟩ | h2)
      · exact absurd h1 h
      · exact h2

theorem mem_add_edge_f (f : Nat → Finset Nat) (e : Nat × Nat) (i j : Nat) :
    j ∈ add_edge_f f e i ↔ (i = e.1 ∧ j = e.2) ∨ (i = e.2 ∧ j = e.1) ∨ j ∈ f i := by
  rcases e with ⟨a, b⟩
  rw [add_edge_f, mem_add_nbr, mem_add_nbr]
  tauto

theorem mem_foldl_add_edge (E : List (Nat × Nat)) (f : Nat → Finset Nat) (i j : Nat) :
    j ∈ (E.foldl add_edge_f f) i ↔ (i, j) ∈ E ∨ (j, i) ∈ E ∨ j ∈ f i := by
  induction E generalizing f with
  | nil => simp
  | cons e E ih =>
    rw [List.foldl_cons, ih, mem_add_edge_f]
    rw [List.mem_cons, List.mem_cons, Prod.ext_iff, Prod.ext_iff]
    tauto

/-- Adjacency of the Sudoku constraint graph: two distinct cell ids sharing
a row, column or box. -/
def cell_adj (i j : Nat) : Prop :=
  i < 81 ∧ j < 81 ∧ i ≠ j ∧ same_unit (i / 9) (i % 9) (j / 9) (j % 9)

instance (i j : Nat) : Decidable (cell_adj i j) := by
  unfold cell_adj; infer_instance

theorem mem_to_graph_edges (i j : Nat) :
    (i, j) ∈ to_graph_edges ↔ cell_adj i j := by
  rw [to_graph_edges]
  simp only [List.mem_flatMap, List.mem_append, List.mem_filterMap, List.mem_range,
    List.mem_range'_1, Option.ite_none_right_eq_some, Option.some.injEq, Prod.mk.injEq]
  constructor
  · rintro ⟨row, hrow, col, hcol, hcase⟩
    rcases hcase with (⟨c, hc, hne, hi, hj⟩ | ⟨r, hr, hne, hi, hj⟩) |
      ⟨r, ⟨hr1, hr2⟩, c, ⟨hc1, hc2⟩, hne, hi, hj⟩
    · refine ⟨by omega, by omega, by omega, Or.inl (by omega)⟩
    · refine ⟨by omega, by omega, by omega, Or.inr (Or.inl (by omega))⟩
    · refine ⟨by omega, by omega, by omega, Or.inr (Or.inr ⟨by omega, by omega⟩)⟩
  · rintro ⟨hi, hj, hne, hunit⟩
    refine ⟨i / 9, by omega, i % 9, by omega, ?_⟩
    rcases hunit with h | h | h
    · exact Or.inl (Or.inl ⟨j % 9, by omega, by omega, by omega, by omega⟩)
    · exact Or.inl (Or.inr ⟨j / 9, by omega, by omega, by omega, by omega⟩)
    · refine Or.inr ⟨j / 9, ⟨by omega, by omega⟩, j % 9, ⟨by omega, by omega⟩,
        by omega, by omega, by omega⟩

theorem cell_adj_symm (i j : Nat) (h : cell_adj i j) : cell_adj j i := by
  obtain ⟨h1, h2, h3, h4⟩ := h
  refine ⟨h2, h1, fun he => h3 he.symm, ?_⟩
  rcases h4 with h | h | h
  · exact Or.inl h.symm
  · exact Or.inr (Or.inl h.symm)
  · exact Or.inr (Or.inr ⟨h.1.symm, h.2.symm⟩)

/-- The neighbor sets built by `to_graph` are exactly Sudoku adjacency. -/
theorem mem_sudoku_nbrs (i j : Nat) : j ∈ sudoku_nbrs i ↔ cell_adj i j := by
  rw [sudoku_nbrs, mem_foldl_add_edge]
  simp only [Finset.not_mem_empty, or_false]
  constructor
  · rintro (h | h)
    · exact (mem_to_graph_edges i j).mp h
    · exact cell_adj_symm j i ((mem_to_graph_edges j i).mp h)
  · intro h
    exact Or.inl ((mem_to_graph_edges i j).mpr h)

theorem sudoku_nbrs_eq_filter (i : Nat) :
    sudoku_nbrs i = (Finset.range 81).filter (fun j => cell_adj i j) := by
  ext j
  rw [mem_sudoku_nbrs, Finset.mem_filter, Finset.mem_range]
  constructor
  · intro h
    exact ⟨h.2.1, h⟩
  · exact fun h => h.2

/-- The graph object built by `to_graph`: 81 vertices (ids `row*9+col`),
pre-filled cells colored with their value and marked fixed, and the
symmetric unit-mate edges. -/
structure PyGraph where
  vertex_ids : List Nat
  nbrs : Nat → Finset Nat
  color : Nat → Option Int
  fixed : Nat → Bool

/-- Source `SudokuBoard.to_graph` on the current grid. -/
def to_graph (g : Grid) : PyGraph :=
  { vertex_ids :=
      (List.range 9).flatMap (fun row => (List.range 9).map (fun col => row * 9 + col)),
    nbrs := sudoku_nbrs,
    color := fun i =>
      if getCell g (i / 9) (i % 9) ≠ 0 then some (getCell g (i / 9) (i % 9)) else none,
    fixed := fun i => decide (getCell g (i / 9) (i % 9) ≠ 0) }

theorem sudoku_nbrs_card_20 : ∀ i, i < 81 → (sudoku_nbrs i).card = 20 := by
  have h : ∀ i, i < 81 →
      ((Finset.range 81).filter (fun j => cell_adj i j)).card = 20 := by decide
  intro i hi
  rw [sudoku_nbrs_eq_filter]
  exact h i hi

/- ### Claim C2: graph shape -/

/-- C2: for every board, the constraint graph has exactly 81 (distinct)
nodes; every node has exactly 20 neighbors, namely exactly the other cells
of its row, column and box; no node neighbors itself; edges are symmetric. -/
theorem C2_graph_structure (g : Grid) :
    (to_graph g).vertex_ids.length = 81 ∧ (to_graph g).vertex_ids.Nodup ∧
    (∀ i, i < 81 →
      ((to_graph g).nbrs i).card = 20 ∧
      (∀ j, j ∈ (to_graph g).nbrs i ↔
        j < 81 ∧ j ≠ i ∧ same_unit (i / 9) (i % 9) (j / 9) (j % 9)) ∧
      i ∉ (to_graph g).nbrs i) ∧
    (∀ i j, j ∈ (to_graph g).nbrs i ↔ i ∈ (to_graph g).nbrs j) := by
  have hv : (to_graph g).vertex_ids =
      (List.range 9).flatMap (fun row => (List.range 9).map (fun col => row * 9 + col)) := rfl
  refine ⟨by rw [hv]; decide, by rw [hv]; decide, ?_, ?_⟩
  · intro i hi
    refine ⟨sudoku_nbrs_card_20 i hi, ?_, ?_⟩
    · intro j
      rw [show (to_graph g).nbrs = sudoku_nbrs from rfl, mem_sudoku_nbrs]
      constructor
      · rintro ⟨-, h2, h3, h4⟩
        exact ⟨h2, fun he => h3 he.symm, h4⟩
      · rintro ⟨h2, h3, h4⟩
        exact ⟨hi, h2, fun he => h3 he.symm, h4⟩
    · rw [show (to_graph g).nbrs = sudoku_nbrs from rfl, mem_sudoku_nbrs]
      rintro ⟨-, -, h3, -⟩
      exact h3 rfl
  · intro i j
    rw [show (to_graph g).nbrs = sudoku_nbrs from rfl, mem_sudoku_nbrs, mem_sudoku_nbrs]
    exact ⟨cell_adj_symm i j, cell_adj_symm j i⟩

/-- C2 witness: node 0 of the graph of the empty board has 20 neighbors,
and node 10 (cell (1,1)) is one of them. -/
theorem C2_witness :
    ((to_graph (List.replicate 9 (List.replicate 9 (0 : Int)))).nbrs 0).card = 20 ∧
    (10 ∈ (to_graph (List.replicate 9 (List.replicate 9 (0 : Int)))).nbrs 0 ↔
      10 < 81 ∧ 10 ≠ 0 ∧ same_unit (0 / 9) (0 % 9) (10 / 9) (10 % 9)) :=
  ⟨((C2_graph_structure (List.replicate 9 (List.replicate 9 (0 : Int)))).2.2.1 0
      (by decide)).1,
   (((C2_graph_structure (List.replicate 9 (List.replicate 9 (0 : Int)))).2.2.1 0
      (by decide)).2.1 10)⟩

/- ### DSATUR solver state -/

abbrev Coloring := Nat → Option Int

/-- Modelled from the spec: `Vertex.domain` — empty for fixed (pre-filled)
vertices, the colors 1..9 otherwise.  (The `Vertex` class used by the
solver is imported from `graph` but missing from the sources.) -/
def vertex_domain (fx : Nat → Bool) (i : Nat) : Finset Int :=
  if fx i then ∅ else Finset.Icc 1 9

/-- Modelled from the spec: `Vertex.get_available_colors` — the vertex
domain minus the colors already used by colored neighbors. -/
def get_available_colors (nbrs : Nat → Finset Nat) (fx : Nat → Bool)
    (col : Coloring) (i : Nat) : Finset Int :=
  (vertex_domain fx i).filter (fun v => ∀ j ∈ nbrs i, col j ≠ some v)

/-- Modelled from the spec: `Vertex.saturation` — the number of distinct
colors among currently colored neighbors. -/
def saturation (nbrs : Nat → Finset Nat) (col : Coloring) (i : Nat) : Nat :=
  (((nbrs i).filter (fun j => col j ≠ none)).image (fun j => col j)).card

/-- Modelled from the spec: `Graph.get_uncolored_vertices` — the uncolored,
non-fixed vertices, in vertex-id order. -/
def get_uncolored_vertices (fx : Nat → Bool) (col : Coloring) : List Nat :=
  (List.range 81).filter (fun i => decide (col i = none) && ! fx i)

/-- Source `DSATURSudokuSolver.is_valid_coloring_local`: an uncolored vertex is
fine; a colored one must clash with no neighbor. -/
def is_valid_coloring_local (nbrs : Nat → Finset Nat) (col : Coloring) (i : Nat) : Bool :=
  match col i with
  | none => true
  | some c => decide (∀ j ∈ nbrs i, col j ≠ some c)

/-- Modelled from the spec: `Graph.is_valid_coloring` — every vertex of the
graph passes the local clash check. -/
def graph_is_valid_coloring (nbrs : Nat → Finset Nat) (col : Coloring) : Bool :=
  (List.range 81).all (fun i => is_valid_coloring_local nbrs col i)

/-- The DSATUR selection key `(-saturation, -degree, |available_colors|)`. -/
def dsatur_key (nbrs : Nat → Finset Nat) (fx : Nat → Bool) (col : Coloring)
    (i : Nat) : Int × Int × Int :=
  (-(saturation nbrs col i : Int), -(((nbrs i).card : Int)),
    ((get_available_colors nbrs fx col i).card : Int))

/-- Strict lexicographic order on key tuples (Python tuple `<`). -/
def key_lt (a b : Int × Int × Int) : Prop :=
  a.1 < b.1 ∨ (a.1 = b.1 ∧ (a.2.1 < b.2.1 ∨ (a.2.1 = b.2.1 ∧ a.2.2 < b.2.2)))

instance (a b : Int × Int × Int) : Decidable (key_lt a b) := by
  unfold key_lt; infer_instance

/-- Python `min(iterable, key=...)`: the first element attaining the least
key (`d` is a dummy for the empty list, on which Python raises). -/
def python_min {α : Type} (key : α → Int × Int × Int) (d : α) : List α → α
  | [] => d
  | x :: xs => xs.foldl (fun best y => if key_lt (key y) (key best) then y else best) x

/-- Source `DSATURSudokuSolver.select_vertex_dsatur`. -/
def select_vertex_dsatur (nbrs : Nat → Finset Nat) (fx : Nat → Bool)
    (col : Coloring) (uncolored : List Nat) : Nat :=
  python_min (dsatur_key nbrs fx col) 0 uncolored

/-- Ascending enumeration of a set of colors (Python `sorted`); every
domain the solver builds only contains colors 1..9. -/
def sorted_colors (s : Finset Int) : List Int :=
  (List.range 9).filterMap (fun k =>
    if ((k : Int) + 1) ∈ s then some ((k : Int) + 1) else none)

/-- The color loop of `dsatur_backtrack` at vertex `v`: assign each color,
re-check locally, recurse through `db`, and reset the color on failure. -/
def try_colors (nbrs : Nat → Finset Nat) (db : Coloring → Bool × Coloring × Nat)
    (v : Nat) (col : Coloring) : List Int → Bool × Coloring × Nat
  | [] => (false, col, 0)
  | c :: cs =>
    let col1 : Coloring := fun n => if n = v then some c else col n
    if is_valid_coloring_local nbrs col1 v then
      let res := db col1
      if res.1 then res
      else
        let col2 : Coloring := fun n => if n = v then none else res.2.1 n
        let rest := try_colors nbrs db v col2 cs
        (rest.1, rest.2.1, res.2.2 + rest.2.2)
    else
      let col2 : Coloring := fun n => if n = v then none else col1 n
      let rest := try_colors nbrs db v col2 cs
      (rest.1, rest.2.1, rest.2.2)

/-- Source `DSATURSudokuSolver.dsatur_backtrack` with an explicit recursion
budget: each level colors one vertex and the completion check needs one more
level, so a budget of 82 covers every board, including the all-empty one.
Returns (success, coloring, nodes explored). -/
def dsatur_backtrack (nbrs : Nat → Finset Nat) (fx : Nat → Bool) :
    Nat → Coloring → Bool × Coloring × Nat
  | 0, col => (false, col, 0)
  | fuel + 1, col =>
    let uncolored := get_uncolored_vertices fx col
    if uncolored.isEmpty then (graph_is_valid_coloring nbrs col, col, 0)
    else
      let v := select_vertex_dsatur nbrs fx col uncolored
      let avail := get_available_colors nbrs fx col v
      if avail.card = 0 then (false, col, 1)
      else
        let res := try_colors nbrs (dsatur_backtrack nbrs fx fuel) v col
          (sorted_colors avail)
        (res.1, res.2.1, res.2.2 + 1)

/-- Source `SudokuBoard.update_from_graph`: write every colored vertex back to its
cell. -/
def update_from_graph (g : Grid) (col : Coloring) : Grid :=
  (List.range 81).foldl (fun acc i =>
    match col i with
    | some v => set_cell acc (i / 9) (i % 9) v
    | none => acc) g

/-- Source `DSATURSudokuSolver.solve`: build the graph, pre-check the fixed
coloring, search, and copy colors back only on success.  Returns
(success, final board, nodes_explored). -/
def dsatur_solver_solve (g : Grid) : Bool × Grid × Nat :=
  if ¬ graph_is_valid_coloring (to_graph g).nbrs (to_graph g).color then (false, g, 0)
  else
    let res := dsatur_backtrack (to_graph g).nbrs (to_graph g).fixed 82 (to_graph g).color
    if res.1 then (true, update_from_graph g res.2.1, res.2.2)
    else (false, g, res.2.2)

/- ### Python min over the DSATUR key -/

theorem key_lt_mk_iff (a1 a2 a3 b1 b2 b3 : Int) :
    key_lt (a1, a2, a3) (b1, b2, b3) ↔
      (a1 < b1 ∨ (a1 = b1 ∧ (a2 < b2 ∨ (a2 = b2 ∧ a3 < b3)))) := Iff.rfl

theorem key_lt_irrefl (a : Int × Int × Int) : ¬ key_lt a a := by
  rcases a with ⟨a1, a2, a3⟩
  rw [key_lt_mk_iff]
  omega

theorem key_lt_trans (a b c : Int × Int × Int)
    (h1 : key_lt a b) (h2 : key_lt b c) : key_lt a c := by
  rcases a with ⟨a1, a2, a3⟩
  rcases b with ⟨b1, b2, b3⟩
  rcases c with ⟨c1, c2, c3⟩
  rw [key_lt_mk_iff] at h1 h2 ⊢
  omega

theorem key_lt_of_not_lt_of_lt (a b c : Int × Int × Int)
    (h1 : ¬ key_lt a b) (h2 : key_lt a c) : key_lt b c := by
  rcases a with ⟨a1, a2, a3⟩
  rcases b with ⟨b1, b2, b3⟩
  rcases c with ⟨c1, c2, c3⟩
  rw [key_lt_mk_iff] at h1 h2 ⊢
  omega

theorem python_min_foldl_spec {α : Type} (key : α → Int × Int × Int) :
    ∀ (xs : List α) (b : α),
      (xs.foldl (fun best y => if key_lt (key y) (key best) then y else best) b ∈ b :: xs) ∧
      (∀ y ∈ b :: xs, ¬ key_lt (key y)
        (key (xs.foldl (fun best y => if key_lt (key y) (key best) then y else best) b))) := by
  intro xs
  induction xs with
  | nil =>
    intro b
    constructor
    · exact List.mem_cons_self b []
    · intro y hy
      rcases List.mem_cons.mp hy with h | h
      · subst h
        exact key_lt_irrefl (key y)
      · simp at h
  | cons z zs ih =>
    intro b
    rw [List.foldl_cons]
    by_cases hzb : key_lt (key z) (key b)
    · rw [if_pos hzb]
      obtain ⟨hmem, hbound⟩ := ih z
      constructor
      · rcases List.mem_cons.mp hmem with h | h
        · rw [h]
          exact List.mem_cons_of_mem _ (List.mem_cons_self _ _)
        · exact List.mem_cons_of_mem _ (List.mem_cons_of_mem _ h)
      · intro y hy
        rcases List.mem_cons.mp hy with h | h
        · subst h
          intro hlt
          exact hbound z (List.mem_cons_self _ _) (key_lt_trans _ _ _ hzb hlt)
        · exact hbound y h
    · rw [if_neg hzb]
      obtain ⟨hmem, hbound⟩ := ih b
      constructor
      · rcases List.mem_cons.mp hmem with h | h
        · rw [h]
          exact List.mem_cons_self _ _
        · exact List.mem_cons_of_mem _ (List.mem_cons_of_mem _ h)
      · intro y hy
        rcases List.mem_cons.mp hy with h | h
        · subst h
          exact hbound y (List.mem_cons_self _ _)
        · rcases List.mem_cons.mp h with h2 | h2
          · subst h2
            intro hlt
            exact hbound b (List.mem_cons_self _ _) (key_lt_of_not_lt_of_lt _ _ _ hzb hlt)
          · exact hbound y (List.mem_cons_of_mem _ h2)

theorem select_vertex_dsatur_spec (nbrs : Nat → Finset Nat) (fx : Nat → Bool)
    (col : Coloring) (uncolored : List Nat) (h : uncolored ≠ []) :
    select_vertex_dsatur nbrs fx col uncolored ∈ uncolored ∧
    ∀ u ∈ uncolored, ¬ key_lt (dsatur_key nbrs fx col u)
      (dsatur_key nbrs fx col (select_vertex_dsatur nbrs fx col uncolored)) := by
  cases uncolored with
  | nil => exact absurd rfl h
  | cons x xs => exact python_min_foldl_spec (dsatur_key nbrs fx col) xs x

/- ### Claim C3: the DSATUR selection heuristic -/

/-- C3: with a non-empty uncolored set, the selected vertex is uncolored;
its saturation is at least every other uncolored vertex's; among equal
saturation its degree is at least theirs; among equal saturation and degree
its remaining available-color count is at most theirs. -/
theorem C3_dsatur_selection (g : Grid) (col : Coloring)
    (h : get_uncolored_vertices (to_graph g).fixed col ≠ []) :
    select_vertex_dsatur (to_graph g).nbrs (to_graph g).fixed col
        (get_uncolored_vertices (to_graph g).fixed col) ∈
      get_uncolored_vertices (to_graph g).fixed col ∧
    ∀ u ∈ get_uncolored_vertices (to_graph g).fixed col,
      (saturation (to_graph g).nbrs col u ≤ saturation (to_graph g).nbrs col
        (select_vertex_dsatur (to_graph g).nbrs (to_graph g).fixed col
          (get_uncolored_vertices (to_graph g).fixed col))) ∧
      (saturation (to_graph g).nbrs col u = saturation (to_graph g).nbrs col
          (select_vertex_dsatur (to_graph g).nbrs (to_graph g).fixed col
            (get_uncolored_vertices (to_graph g).fixed col)) →
        ((to_graph g).nbrs u).card ≤ ((to_graph g).nbrs
          (select_vertex_dsatur (to_graph g).nbrs (to_graph g).fixed col
            (get_uncolored_vertices (to_graph g).fixed col))).card) ∧
      (saturation (to_graph g).nbrs col u = saturation (to_graph g).nbrs col
          (select_vertex_dsatur (to_graph g).nbrs (to_graph g).fixed col
            (get_uncolored_vertices (to_graph g).fixed col)) →
        ((to_graph g).nbrs u).card = ((to_graph g).nbrs
          (select_vertex_dsatur (to_graph g).nbrs (to_graph g).fixed col
            (get_uncolored_vertices (to_graph g).fixed col))).card →
        (get_available_colors (to_graph g).nbrs (to_graph g).fixed col
          (select_vertex_dsatur (to_graph g).nbrs (to_graph g).fixed col
            (get_uncolored_vertices (to_graph g).fixed col))).card ≤
        (get_available_colors (to_graph g).nbrs (to_graph g).fixed col u).card) := by
  obtain ⟨hmem, hbound⟩ := select_vertex_dsatur_spec (to_graph g).nbrs (to_graph g).fixed
    col (get_uncolored_vertices (to_graph g).fixed col) h
  refine ⟨hmem, ?_⟩
  intro u hu
  have hb := hbound u hu
  rw [dsatur_key, dsatur_key, key_lt_mk_iff] at hb
  refine ⟨by omega, by omega, by omega⟩

/-- C3 witness: on the empty board with nothing colored, the selected
vertex is one of the uncolored vertices. -/
theorem C3_witness :
    select_vertex_dsatur (to_graph (List.replicate 9 (List.replicate 9 (0 : Int)))).nbrs
      (to_graph (List.replicate 9 (List.replicate 9 (0 : Int)))).fixed (fun _ => none)
      (get_uncolored_vertices
        (to_graph (List.replicate 9 (List.replicate 9 (0 : Int)))).fixed (fun _ => none)) ∈
    get_uncolored_vertices
      (to_graph (List.replicate 9 (List.replicate 9 (0 : Int)))).fixed (fun _ => none) :=
  (C3_dsatur_selection (List.replicate 9 (List.replicate 9 (0 : Int))) (fun _ => none)
    (by decide)).1

/- ### Claim C4: conflicting pre-filled cells fail before any search -/

theorem conflict_invalid_coloring (g : Grid) (hc : has_conflict g) :
    graph_is_valid_coloring (to_graph g).nbrs (to_graph g).color = false := by
  obtain ⟨r1, c1, r2, c2, h1, h2, h3, h4, hne, hunit, hnz, heq⟩ := hc
  rw [Bool.eq_false_iff]
  intro hall
  have hdiv1 : (r1 * 9 + c1) / 9 = r1 := by omega
  have hmod1 : (r1 * 9 + c1) % 9 = c1 := by omega
  have hdiv2 : (r2 * 9 + c2) / 9 = r2 := by omega
  have hmod2 : (r2 * 9 + c2) % 9 = c2 := by omega
  have hloc : is_valid_coloring_local (to_graph g).nbrs (to_graph g).color
      (r1 * 9 + c1) = true :=
    List.all_eq_true.mp hall (r1 * 9 + c1) (List.mem_range.mpr (by omega))
  have hcoli : (to_graph g).color (r1 * 9 + c1) = some (getCell g r1 c1) := by
    show (if getCell g ((r1 * 9 + c1) / 9) ((r1 * 9 + c1) % 9) ≠ 0 then
      some (getCell g ((r1 * 9 + c1) / 9) ((r1 * 9 + c1) % 9)) else none) = _
    rw [hdiv1, hmod1, if_pos hnz]
  have hnz2 : getCell g r2 c2 ≠ 0 := by rw [← heq]; exact hnz
  have hcolj : (to_graph g).color (r2 * 9 + c2) = some (getCell g r2 c2) := by
    show (if getCell g ((r2 * 9 + c2) / 9) ((r2 * 9 + c2) % 9) ≠ 0 then
      some (getCell g ((r2 * 9 + c2) / 9) ((r2 * 9 + c2) % 9)) else none) = _
    rw [hdiv2, hmod2, if_pos hnz2]
  have hadj : (r2 * 9 + c2) ∈ (to_graph g).nbrs (r1 * 9 + c1) := by
    rw [show (to_graph g).nbrs = sudoku_nbrs from rfl, mem_sudoku_nbrs]
    refine ⟨by omega, by omega, by omega, ?_⟩
    rw [hdiv1, hmod1, hdiv2, hmod2]
    exact hunit
  rw [is_valid_coloring_local, hcoli] at hloc
  have hforall := of_decide_eq_true hloc
  exact hforall _ hadj (by rw [hcolj, heq])

/-- C4: a board whose pre-filled cells already conflict makes both solvers
fail before any search: success is false, the board is untouched, and zero
nodes are explored. -/
theorem C4_invalid_initial (g : Grid) (hg : dims g) (hc : has_conflict g) :
    simple_solver_solve g = (false, g, 0) ∧ dsatur_solver_solve g = (false, g, 0) := by
  constructor
  · rw [simple_solver_solve]
    have hval : ¬ is_valid g = true := fun hv =>
      not_good_of_has_conflict g hc (good_of_is_valid g hg hv)
    rw [if_neg hval]
  · rw [dsatur_solver_solve]
    have hcol := conflict_invalid_coloring g hc
    rw [if_pos (by rw [hcol]; exact fun h => Bool.noConfusion h)]

/-- A board with two 5s in the same row (and box). -/
def conflict_board : Grid :=
  ([5, 5, 0, 0, 0, 0, 0, 0, 0] : List Int) :: List.replicate 8 (List.replicate 9 (0 : Int))

/-- C4 witness: the double-5 board is rejected by both solvers with zero
nodes explored. -/
theorem C4_witness :
    simple_solver_solve conflict_board = (false, conflict_board, 0) ∧
    dsatur_solver_solve conflict_board = (false, conflict_board, 0) :=
  C4_invalid_initial conflict_board (by decide)
    ⟨0, 0, 0, 1, by decide, by decide, by decide, by decide, by decide,
      Or.inl rfl, by decide, by decide⟩

/- ### Writing a coloring back to the board -/

theorem update_fold_dims (col : Coloring) :
    ∀ (L : List Nat) (g : Grid), dims g →
      dims (L.foldl (fun acc i =>
        match col i with
        | some v => set_cell acc (i / 9) (i % 9) v
        | none => acc) g) := by
  intro L
  induction L with
  | nil => intro g hg; exact hg
  | cons i L ih =>
    intro g hg
    rw [List.foldl_cons]
    apply ih
    cases hcol : col i with
    | none => exact hg
    | some v => exact dims_set_cell g (i / 9) (i % 9) v hg

theorem update_fold_get (col : Coloring) :
    ∀ (L : List Nat), (∀ i ∈ L, i < 81) →
      ∀ (g : Grid), dims g → ∀ r c, r < 9 → c < 9 →
      getCell (L.foldl (fun acc i =>
        match col i with
        | some v => set_cell acc (i / 9) (i % 9) v
        | none => acc) g) r c =
      (if (r * 9 + c) ∈ L then (col (r * 9 + c)).getD (getCell g r c)
       else getCell g r c) := by
  intro L
  induction L with
  | nil =>
    intro hL g hg r c hr hc
    rw [List.foldl_nil, if_neg (by simp)]
  | cons i L ih =>
    intro hL g hg r c hr hc
    have hi81 : i < 81 := hL i (List.mem_cons_self _ _)
    have hLrest : ∀ j ∈ L, j < 81 := fun j hj => hL j (List.mem_cons_of_mem _ hj)
    rw [List.foldl_cons]
    by_cases hid : i = r * 9 + c
    · have hir : i / 9 = r := by omega
      have hic : i % 9 = c := by omega
      have hmemtrue : (r * 9 + c) ∈ i :: L := by
        rw [← hid]
        exact List.mem_cons_self _ _
      rw [if_pos hmemtrue]
      cases hcol : col i with
      | none =>
        have hcol2 : col (r * 9 + c) = none := by rw [← hid]; exact hcol
        rw [ih hLrest g hg r c hr hc, hcol2, Option.getD_none]
        by_cases hmem : (r * 9 + c) ∈ L
        · rw [if_pos hmem]
        · rw [if_neg hmem]
      | some v =>
        have hcol2 : col (r * 9 + c) = some v := by rw [← hid]; exact hcol
        rw [hir, hic]
        rw [ih hLrest (set_cell g r c v) (dims_set_cell g r c v hg) r c hr hc, hcol2,
          Option.getD_some, getCell_set_cell_self g r c v hg hr hc]
        by_cases hmem : (r * 9 + c) ∈ L
        · rw [if_pos hmem]
          rfl
        · rw [if_neg hmem]
          rfl
    · have hcellne : i / 9 ≠ r ∨ i % 9 ≠ c := by omega
      have hstep : getCell (match col i with
          | some v => set_cell g (i / 9) (i % 9) v
          | none => g) r c = getCell g r c := by
        cases hcol : col i with
        | none => rfl
        | some v => exact getCell_set_cell_ne g (i / 9) (i % 9) r c v hcellne
      have hstepdims : dims (match col i with
          | some v => set_cell g (i / 9) (i % 9) v
          | none => g) := by
        cases hcol : col i with
        | none => exact hg
        | some v => exact dims_set_cell g (i / 9) (i % 9) v hg
      rw [ih hLrest _ hstepdims r c hr hc, hstep]
      have hmemiff : ((r * 9 + c) ∈ i :: L) ↔ ((r * 9 + c) ∈ L) := by
        rw [List.mem_cons]
        constructor
        · rintro (h | h)
          · exact absurd h.symm hid
          · exact h
        · exact fun h => Or.inr h
      by_cases hmem : (r * 9 + c) ∈ L
      · rw [if_pos hmem, if_pos (hmemiff.mpr hmem)]
      · rw [if_neg hmem, if_neg (fun h => hmem (hmemiff.mp h))]

theorem getCell_update_from_graph (g : Grid) (col : Coloring) (hg : dims g)
    (r c : Nat) (hr : r < 9) (hc : c < 9) :
    getCell (update_from_graph g col) r c = (col (r * 9 + c)).getD (getCell g r c) := by
  rw [update_from_graph, update_fold_get col (List.range 81)
    (fun i hi => List.mem_range.mp hi) g hg r c hr hc]
  rw [if_pos (List.mem_range.mpr (by omega))]

theorem dims_update_from_graph (g : Grid) (col : Coloring) (hg : dims g) :
    dims (update_from_graph g col) :=
  update_fold_dims col (List.range 81) g hg

/- ### Claim C7: DSATUR leaves the board alone unless it succeeds -/

/-- C7: if `DSATURSudokuSolver.solve` fails, the board is exactly as it
was; on success each cell holds its vertex's color (cells of uncolored
vertices keep their old value). -/
theorem C7_dsatur_frame (g : Grid) (hg : dims g) :
    ((dsatur_solver_solve g).1 = false → (dsatur_solver_solve g).2.1 = g) ∧
    ((dsatur_solver_solve g).1 = true → ∀ r c, r < 9 → c < 9 →
      getCell (dsatur_solver_solve g).2.1 r c =
        ((dsatur_backtrack (to_graph g).nbrs (to_graph g).fixed 82
            (to_graph g).color).2.1 (r * 9 + c)).getD (getCell g r c)) := by
  rw [dsatur_solver_solve]
  by_cases hpre : graph_is_valid_coloring (to_graph g).nbrs (to_graph g).color = true
  · rw [if_neg (not_not_intro hpre)]
    simp only []
    by_cases hok : (dsatur_backtrack (to_graph g).nbrs (to_graph g).fixed 82
        (to_graph g).color).1 = true
    · rw [if_pos hok]
      constructor
      · intro h
        exact Bool.noConfusion h
      · intro h r c hr hc
        exact getCell_update_from_graph g _ hg r c hr hc
    · rw [if_neg hok]
      constructor
      · intro h
        rfl
      · intro h
        exact Bool.noConfusion h
  · rw [if_pos hpre]
    constructor
    · intro h
      rfl
    · intro h
      exact Bool.noConfusion h

/-- C7 witness: on the double-5 conflict board, DSATUR fails and the board
is returned unchanged. -/
theorem C7_witness : (dsatur_solver_solve conflict_board).2.1 = conflict_board :=
  (C7_dsatur_frame conflict_board (by decide)).1 (by decide)

/- ### DSATUR search: success facts -/

theorem mem_sorted_colors (s : Finset Int) (x : Int) (h : x ∈ sorted_colors s) :
    x ∈ s := by
  obtain ⟨k, -, hk⟩ := List.mem_filterMap.mp h
  by_cases hmem : ((k : Int) + 1) ∈ s
  · rw [if_pos hmem] at hk
    exact (Option.some_injective _ hk) ▸ hmem
  · rw [if_neg hmem] at hk
    exact Option.noConfusion hk

theorem try_colors_success (nbrs : Nat → Finset Nat) (fx : Nat → Bool)
    (db : Coloring → Bool × Coloring × Nat) (v : Nat)
    (hdb : ∀ c0, (db c0).1 = true →
      graph_is_valid_coloring nbrs (db c0).2.1 = true ∧
      get_uncolored_vertices fx (db c0).2.1 = []) :
    ∀ (cs : List Int) (col : Coloring), (try_colors nbrs db v col cs).1 = true →
      graph_is_valid_coloring nbrs (try_colors nbrs db v col cs).2.1 = true ∧
      get_uncolored_vertices fx (try_colors nbrs db v col cs).2.1 = [] := by
  intro cs
  induction cs with
  | nil =>
    intro col ht
    exact Bool.noConfusion ht
  | cons c cs ih =>
    intro col ht
    rw [try_colors] at ht ⊢
    by_cases hloc : is_valid_coloring_local nbrs
        (fun n => if n = v then some c else col n) v = true
    · rw [if_pos hloc] at ht ⊢
      simp only [] at ht ⊢
      by_cases hok : (db (fun n => if n = v then some c else col n)).1 = true
      · rw [if_pos hok] at ht ⊢
        exact hdb _ hok
      · rw [if_neg hok] at ht ⊢
        simp only [] at ht ⊢
        exact ih _ ht
    · rw [if_neg hloc] at ht ⊢
      simp only [] at ht ⊢
      exact ih _ ht

theorem dsatur_backtrack_success (nbrs : Nat → Finset Nat) (fx : Nat → Bool) (fuel : Nat) :
    ∀ col, (dsatur_backtrack nbrs fx fuel col).1 = true →
      graph_is_valid_coloring nbrs (dsatur_backtrack nbrs fx fuel col).2.1 = true ∧
      get_uncolored_vertices fx (dsatur_backtrack nbrs fx fuel col).2.1 = [] := by
  induction fuel with
  | zero =>
    intro col h
    exact Bool.noConfusion h
  | succ fuel ih =>
    intro col h
    rw [dsatur_backtrack] at h ⊢
    simp only [] at h ⊢
    by_cases hemp : (get_uncolored_vertices fx col).isEmpty = true
    · rw [if_pos hemp] at h ⊢
      exact ⟨h, List.isEmpty_iff.mp hemp⟩
    · rw [if_neg hemp] at h ⊢
      by_cases hav : (get_available_colors nbrs fx col
          (select_vertex_dsatur nbrs fx col (get_uncolored_vertices fx col))).card = 0
      · rw [if_pos hav] at h
        exact Bool.noConfusion h
      · rw [if_neg hav] at h ⊢
        simp only [] at h ⊢
        exact try_colors_success nbrs fx _ _ ih _ _ h

/- ### DSATUR search: frame facts -/

/-- How the search may change a coloring: each vertex keeps its color, or
an uncolored non-fixed vertex acquires a color in 1..9. -/
def coloring_grows (fx : Nat → Bool) (col col2 : Coloring) : Prop :=
  ∀ i, col2 i = col i ∨
    (col i = none ∧ fx i = false ∧ ∃ cv, col2 i = some cv ∧ 1 ≤ cv ∧ cv ≤ 9)

theorem try_colors_frame (nbrs : Nat → Finset Nat) (fx : Nat → Bool)
    (db : Coloring → Bool × Coloring × Nat) (v : Nat) (hvfx : fx v = false)
    (hdb_false : ∀ c0, (db c0).1 = false → (db c0).2.1 = c0)
    (hdb_true : ∀ c0, (db c0).1 = true → coloring_grows fx c0 (db c0).2.1) :
    ∀ (cs : List Int), (∀ x ∈ cs, 1 ≤ x ∧ x ≤ 9) → ∀ col, col v = none →
      ((try_colors nbrs db v col cs).1 = false → (try_colors nbrs db v col cs).2.1 = col) ∧
      ((try_colors nbrs db v col cs).1 = true →
        coloring_grows fx col (try_colors nbrs db v col cs).2.1) := by
  intro cs
  induction cs with
  | nil =>
    intro hbnd col hcolv
    exact ⟨fun _ => rfl, fun ht => Bool.noConfusion ht⟩
  | cons c cs ih =>
    intro hbnd col hcolv
    have hcb : 1 ≤ c ∧ c ≤ 9 := hbnd c (List.mem_cons_self _ _)
    have hbnd2 : ∀ x ∈ cs, 1 ≤ x ∧ x ≤ 9 := fun x hx => hbnd x (List.mem_cons_of_mem _ hx)
    rw [try_colors]
    by_cases hloc : is_valid_coloring_local nbrs
        (fun n => if n = v then some c else col n) v = true
    · rw [if_pos hloc]
      simp only []
      by_cases hok : (db (fun n => if n = v then some c else col n)).1 = true
      · rw [if_pos hok]
        constructor
        · intro hf
          rw [hok] at hf
          exact Bool.noConfusion hf
        · intro ht i
          rcases hdb_true _ hok i with h | ⟨h1, h2, cv, h3, h4, h5⟩
          · simp only [] at h
            by_cases hiv : i = v
            · subst hiv
              rw [if_pos rfl] at h
              exact Or.inr ⟨hcolv, hvfx, c, h, hcb.1, hcb.2⟩
            · rw [if_neg hiv] at h
              exact Or.inl h
          · simp only [] at h1
            by_cases hiv : i = v
            · subst hiv
              rw [if_pos rfl] at h1
              exact Option.noConfusion h1
            · rw [if_neg hiv] at h1
              exact Or.inr ⟨h1, h2, cv, h3, h4, h5⟩
      · rw [if_neg hok]
        have hokf : (db (fun n => if n = v then some c else col n)).1 = false :=
          Bool.eq_false_iff.mpr hok
        have hrest := hdb_false _ hokf
        have hcol2 : (fun n => if n = v then none
            else (db (fun n => if n = v then some c else col n)).2.1 n) = col := by
          funext n
          by_cases hn : n = v
          · subst hn
            rw [if_pos rfl, hcolv]
          · rw [if_neg hn, hrest]
            simp only []
            rw [if_neg hn]
        simp only []
        rw [hcol2]
        exact ih hbnd2 col hcolv
    · rw [if_neg hloc]
      have hcol2 : (fun n => if n = v then none
          else (if n = v then some c else col n)) = col := by
        funext n
        by_cases hn : n = v
        · subst hn
          rw [if_pos rfl, hcolv]
        · rw [if_neg hn, if_neg hn]
      simp only []
      rw [hcol2]
      exact ih hbnd2 col hcolv

theorem dsatur_backtrack_frame (nbrs : Nat → Finset Nat) (fx : Nat → Bool) (fuel : Nat) :
    ∀ col,
      ((dsatur_backtrack nbrs fx fuel col).1 = false →
        (dsatur_backtrack nbrs fx fuel col).2.1 = col) ∧
      ((dsatur_backtrack nbrs fx fuel col).1 = true →
        coloring_grows fx col (dsatur_backtrack nbrs fx fuel col).2.1) := by
  induction fuel with
  | zero =>
    intro col
    exact ⟨fun _ => rfl, fun h => Bool.noConfusion h⟩
  | succ fuel ih =>
    intro col
    rw [dsatur_backtrack]
    simp only []
    by_cases hemp : (get_uncolored_vertices fx col).isEmpty = true
    · rw [if_pos hemp]
      exact ⟨fun _ => rfl, fun _ i => Or.inl rfl⟩
    · rw [if_neg hemp]
      have hne : get_uncolored_vertices fx col ≠ [] := by
        intro he
        rw [he] at hemp
        exact hemp rfl
      have hvmem := (select_vertex_dsatur_spec nbrs fx col _ hne).1
      obtain ⟨-, hvpred⟩ := List.mem_filter.mp hvmem
      have hvcol : col (select_vertex_dsatur nbrs fx col
          (get_uncolored_vertices fx col)) = none := by
        have := (Bool.and_eq_true _ _).mp hvpred
        exact of_decide_eq_true this.1
      have hvfx : fx (select_vertex_dsatur nbrs fx col
          (get_uncolored_vertices fx col)) = false := by
        have := (Bool.and_eq_true _ _).mp hvpred
        simpa using this.2
      by_cases hav : (get_available_colors nbrs fx col
          (select_vertex_dsatur nbrs fx col (get_uncolored_vertices fx col))).card = 0
      · rw [if_pos hav]
        exact ⟨fun _ => rfl, fun h => Bool.noConfusion h⟩
      · rw [if_neg hav]
        have hbnd : ∀ x ∈ sorted_colors (get_available_colors nbrs fx col
            (select_vertex_dsatur nbrs fx col (get_uncolored_vertices fx col))),
            1 ≤ x ∧ x ≤ 9 := by
          intro x hx
          have hxa := mem_sorted_colors _ x hx
          have hxd := (Finset.mem_filter.mp hxa).1
          rw [vertex_domain, hvfx] at hxd
          simp only [Bool.false_eq_true, if_false] at hxd
          exact Finset.mem_Icc.mp hxd
        simp only []
        exact try_colors_frame nbrs fx _ _ hvfx (fun c0 => (ih c0).1) (fun c0 => (ih c0).2)
          _ hbnd col hvcol

/- ### Correctness of the DSATUR solver on success -/

theorem to_graph_color_some_elim (g : Grid) (i : Nat) (w : Int)
    (h : (to_graph g).color i = some w) : w = getCell g (i / 9) (i % 9) ∧ w ≠ 0 := by
  have h2 : (if getCell g (i / 9) (i % 9) ≠ 0 then
      some (getCell g (i / 9) (i % 9)) else none) = some w := h
  by_cases hnz : getCell g (i / 9) (i % 9) ≠ 0
  · rw [if_pos hnz] at h2
    have h3 := Option.some_injective _ h2
    exact ⟨h3.symm, h3 ▸ hnz⟩
  · rw [if_neg hnz] at h2
    exact Option.noConfusion h2

theorem to_graph_fixed_color (g : Grid) (i : Nat) (hfx : (to_graph g).fixed i = true) :
    (to_graph g).color i = some (getCell g (i / 9) (i % 9)) := by
  have hnz : getCell g (i / 9) (i % 9) ≠ 0 := of_decide_eq_true hfx
  show (if getCell g (i / 9) (i % 9) ≠ 0 then
    some (getCell g (i / 9) (i % 9)) else none) = _
  rw [if_pos hnz]

theorem dsatur_solve_correct (g : Grid) (hg : dims g)
    (hs : (dsatur_solver_solve g).1 = true) :
    (∀ r c, r < 9 → c < 9 → getCell (dsatur_solver_solve g).2.1 r c ≠ 0) ∧
    (∀ r c, r < 9 → c < 9 → value_exactly_once (dsatur_solver_solve g).2.1 r c) := by
  rw [dsatur_solver_solve] at hs ⊢
  by_cases hpre : graph_is_valid_coloring (to_graph g).nbrs (to_graph g).color = true
  · rw [if_neg (not_not_intro hpre)] at hs ⊢
    simp only [] at hs ⊢
    by_cases hok : (dsatur_backtrack (to_graph g).nbrs (to_graph g).fixed 82
        (to_graph g).color).1 = true
    · rw [if_pos hok] at hs ⊢
      obtain ⟨hvalidF, hunF⟩ := dsatur_backtrack_success _ _ 82 _ hok
      have hgrow := (dsatur_backtrack_frame (to_graph g).nbrs (to_graph g).fixed 82
        (to_graph g).color).2 hok
      set colF := (dsatur_backtrack (to_graph g).nbrs (to_graph g).fixed 82
        (to_graph g).color).2.1 with hcolFdef
      have hcolored : ∀ i, i < 81 → colF i ≠ none := by
        intro i hi hnone
        by_cases hfx : (to_graph g).fixed i = true
        · have hcol0 := to_graph_fixed_color g i hfx
          rcases hgrow i with h | ⟨h1, -, -⟩
          · rw [h, hcol0] at hnone
            exact Option.noConfusion hnone
          · rw [hcol0] at h1
            exact Option.noConfusion h1
        · have hfx2 : (to_graph g).fixed i = false := Bool.eq_false_iff.mpr hfx
          have hmem : i ∈ get_uncolored_vertices (to_graph g).fixed colF := by
            apply List.mem_filter.mpr
            refine ⟨List.mem_range.mpr hi, ?_⟩
            rw [hnone, hfx2]
            rfl
          rw [hunF] at hmem
          simp at hmem
      have hbval : ∀ r c, r < 9 → c < 9 →
          getCell (update_from_graph g colF) r c = (colF (r * 9 + c)).getD (getCell g r c) :=
        fun r c hr hc => getCell_update_from_graph g colF hg r c hr hc
      have hvals : ∀ r c, r < 9 → c < 9 → ∃ w, colF (r * 9 + c) = some w ∧
          getCell (update_from_graph g colF) r c = w ∧ w ≠ 0 := by
        intro r c hr hc
        cases hw : colF (r * 9 + c) with
        | none => exact absurd hw (hcolored _ (by omega))
        | some w =>
          refine ⟨w, rfl, ?_, ?_⟩
          · rw [hbval r c hr hc, hw]
            rfl
          · rcases hgrow (r * 9 + c) with h | ⟨-, -, cv, h3, h4, h5⟩
            · rw [hw] at h
              obtain ⟨-, hnz⟩ := to_graph_color_some_elim g _ w h.symm
              exact hnz
            · rw [hw] at h3
              have hwcv := Option.some_injective _ h3
              omega
      have hfill : ∀ r c, r < 9 → c < 9 →
          getCell (update_from_graph g colF) r c ≠ 0 := by
        intro r c hr hc
        obtain ⟨w, -, hbw, hnz⟩ := hvals r c hr hc
        rw [hbw]
        exact hnz
      have hgood : good (update_from_graph g colF) := by
        intro r1 c1 r2 c2 hr1 hc1 hr2 hc2 hne hunit hnz
        obtain ⟨w1, hw1, hb1, -⟩ := hvals r1 c1 hr1 hc1
        obtain ⟨w2, hw2, hb2, -⟩ := hvals r2 c2 hr2 hc2
        rw [hb1, hb2]
        have hdiv1 : (r1 * 9 + c1) / 9 = r1 := by omega
        have hmod1 : (r1 * 9 + c1) % 9 = c1 := by omega
        have hdiv2 : (r2 * 9 + c2) / 9 = r2 := by omega
        have hmod2 : (r2 * 9 + c2) % 9 = c2 := by omega
        have hadj : (r2 * 9 + c2) ∈ (to_graph g).nbrs (r1 * 9 + c1) := by
          rw [show (to_graph g).nbrs = sudoku_nbrs from rfl, mem_sudoku_nbrs]
          refine ⟨by omega, by omega, by omega, ?_⟩
          rw [hdiv1, hmod1, hdiv2, hmod2]
          exact hunit
        have hloc : is_valid_coloring_local (to_graph g).nbrs colF (r1 * 9 + c1) = true :=
          List.all_eq_true.mp hvalidF _ (List.mem_range.mpr (by omega))
        rw [is_valid_coloring_local, hw1] at hloc
        have hfa := of_decide_eq_true hloc
        intro heq
        exact hfa _ hadj (by rw [hw2, heq])
      exact ⟨hfill, fun r c hr hc => good_complete_exactly_once _ hgood hfill r c hr hc⟩
    · rw [if_neg hok] at hs
      exact Bool.noConfusion hs
  · rw [if_pos hpre] at hs
    exact Bool.noConfusion hs

/- ### Claim C1: success implies a complete, conflict-free board -/

theorem is_complete_eq_true_iff (g : Grid) :
    is_complete g = true ↔ ∀ r c, r < 9 → c < 9 → getCell g r c ≠ 0 := by
  rw [is_complete]
  constructor
  · intro h r c hr hc
    have h1 := List.all_eq_true.mp h r (List.mem_range.mpr hr)
    have h2 := List.all_eq_true.mp h1 c (List.mem_range.mpr hc)
    exact of_decide_eq_true h2
  · intro h
    apply List.all_eq_true.mpr
    intro r hr
    apply List.all_eq_true.mpr
    intro c hc
    exact decide_eq_true (h r c (List.mem_range.mp hr) (List.mem_range.mp hc))

/-- C1: whenever either solver's `solve` reports success, the board it
returns is completely filled and every cell's value appears exactly once in
its row, its column and its 3x3 box. -/
theorem C1_solvers_correct_on_success (g : Grid) (hg : dims g) :
    ((simple_solver_solve g).1 = true →
      is_complete (simple_solver_solve g).2.1 = true ∧
      ∀ r c, r < 9 → c < 9 → value_exactly_once (simple_solver_solve g).2.1 r c) ∧
    ((dsatur_solver_solve g).1 = true →
      is_complete (dsatur_solver_solve g).2.1 = true ∧
      ∀ r c, r < 9 → c < 9 → value_exactly_once (dsatur_solver_solve g).2.1 r c) := by
  constructor
  · intro hs
    obtain ⟨hfill, honce⟩ := simple_solve_correct g hg hs
    exact ⟨(is_complete_eq_true_iff _).mpr hfill, honce⟩
  · intro hs
    obtain ⟨hfill, honce⟩ := dsatur_solve_correct g hg hs
    exact ⟨(is_complete_eq_true_iff _).mpr hfill, honce⟩

/- ### A computation-friendly form of the DSATUR solve -/

/-- The neighbor sets written as a direct filter (provably equal to the
built graph's neighbor sets). -/
def fast_nbrs : Nat → Finset Nat :=
  fun i => (Finset.range 81).filter (fun j => cell_adj i j)

/-- Definition `dsatur_solver_solve` rewritten with the filter form of the neighbor sets. -/
def dsatur_solve_fast (g : Grid) : Bool × Grid × Nat :=
  if ¬ graph_is_valid_coloring fast_nbrs (to_graph g).color then (false, g, 0)
  else
    let res := dsatur_backtrack fast_nbrs (to_graph g).fixed 82 (to_graph g).color
    if res.1 then (true, update_from_graph g res.2.1, res.2.2)
    else (false, g, res.2.2)

theorem dsatur_solve_eq_fast (g : Grid) : dsatur_solver_solve g = dsatur_solve_fast g := by
  have h : (to_graph g).nbrs = fast_nbrs := funext (fun i => sudoku_nbrs_eq_filter i)
  rw [dsatur_solver_solve, dsatur_solve_fast, h]

/-- C1 witness: on the one-blank puzzle both solvers succeed and return a
completely filled board. -/
theorem C1_witness :
    is_complete (simple_solver_solve one_blank_board).2.1 = true ∧
    is_complete (dsatur_solver_solve one_blank_board).2.1 = true :=
  ⟨((C1_solvers_correct_on_success one_blank_board (by decide)).1 (by decide)).1,
   ((C1_solvers_correct_on_success one_blank_board (by decide)).2
     (by simp only [dsatur_solve_eq_fast]; decide)).1⟩

/- ### Claim C9: copy() is a deep, independent clone -/

theorem list_getD_append_left {α : Type} (l1 l2 : List α) (i : Nat) (d : α)
    (h : i < l1.length) : (l1 ++ l2).getD i d = l1.getD i d := by
  induction l1 generalizing i with
  | nil => simp at h
  | cons x xs ih =>
    cases i with
    | zero => rfl
    | succ j => simpa using ih j (by simpa using h)

theorem list_getD_append_right {α : Type} (l1 l2 : List α) (i : Nat) (d : α) :
    (l1 ++ l2).getD (l1.length + i) d = l2.getD i d := by
  induction l1 with
  | nil => simp
  | cons x xs ih => simpa [Nat.succ_add] using ih

theorem list_getD_range' (s n r : Nat) (h : r < n) :
    (List.range' s n).getD r 0 = s + r := by
  induction n generalizing s r with
  | zero => simp at h
  | succ m ih =>
    cases r with
    | zero => simp [List.range']
    | succ j =>
      have := ih (s + 1) j (by omega)
      simp only [List.range', List.getD_cons_succ]
      rw [this]
      omega

/-- Python object model for C9: row objects live in a heap, a board's grid
is a list of references to row objects. -/
structure BoardObj where
  grid_refs : List Nat
  original_grid : Option (List (List Int))

/-- Read `board.grid[r][c]` through the heap. -/
def read_cell_ref (h : List (List Int)) (b : BoardObj) (r c : Nat) : Int :=
  (h.getD (b.grid_refs.getD r 0) []).getD c 0

/-- Source `set_cell` on the object model: mutate the referenced row object. -/
def set_cell_ref (h : List (List Int)) (b : BoardObj) (r c : Nat) (v : Int) :
    List (List Int) :=
  h.set (b.grid_refs.getD r 0) ((h.getD (b.grid_refs.getD r 0) []).set c v)

/-- Source `SudokuBoard.copy`: a new board whose grid is `[row[:] for row in
self.grid]` — freshly allocated row objects with equal contents — and whose
`original_grid` is cloned likewise (kept as a value here). -/
def copy_board (h : List (List Int)) (b : BoardObj) : List (List Int) × BoardObj :=
  (h ++ b.grid_refs.map (fun ref => h.getD ref []),
   { grid_refs := List.range' h.length b.grid_refs.length,
     original_grid := b.original_grid })

/-- Every row reference of the board points into the heap. -/
def board_wf (h : List (List Int)) (b : BoardObj) : Prop :=
  ∀ ref ∈ b.grid_refs, ref < h.length

instance (h : List (List Int)) (b : BoardObj) : Decidable (board_wf h b) := by
  unfold board_wf
  infer_instance

/-- C9: `copy()` returns a board whose grid and `original_grid` equal the
original's, sharing no row objects: mutating the copy's grid never changes
the original's grid, and vice versa. -/
theorem C9_copy_independent (h : List (List Int)) (b : BoardObj)
    (hwf : board_wf h b) :
    ((copy_board h b).2.original_grid = b.original_grid) ∧
    (∀ r c, r < b.grid_refs.length →
      read_cell_ref (copy_board h b).1 (copy_board h b).2 r c =
        read_cell_ref (copy_board h b).1 b r c ∧
      read_cell_ref (copy_board h b).1 b r c = read_cell_ref h b r c) ∧
    (∀ r c v r2 c2, r < b.grid_refs.length → r2 < b.grid_refs.length →
      read_cell_ref (set_cell_ref (copy_board h b).1 (copy_board h b).2 r c v) b r2 c2 =
        read_cell_ref (copy_board h b).1 b r2 c2) ∧
    (∀ r c v r2 c2, r < b.grid_refs.length → r2 < b.grid_refs.length →
      read_cell_ref (set_cell_ref (copy_board h b).1 b r c v) (copy_board h b).2 r2 c2 =
        read_cell_ref (copy_board h b).1 (copy_board h b).2 r2 c2) := by
  have href : ∀ r, r < b.grid_refs.length → b.grid_refs.getD r 0 < h.length := by
    intro r hr
    apply hwf
    rw [List.getD_eq_getElem _ _ hr]
    exact List.getElem_mem hr
  have hcopyref : ∀ r, r < b.grid_refs.length →
      (copy_board h b).2.grid_refs.getD r 0 = h.length + r := by
    intro r hr
    exact list_getD_range' h.length b.grid_refs.length r hr
  have hcopyrow : ∀ r, r < b.grid_refs.length →
      (copy_board h b).1.getD (h.length + r) [] = h.getD (b.grid_refs.getD r 0) [] := by
    intro r hr
    show (h ++ b.grid_refs.map (fun ref => h.getD ref [])).getD (h.length + r) [] = _
    rw [list_getD_append_right]
    have hrm : r < (b.grid_refs.map (fun ref => h.getD ref [])).length := by
      rw [List.length_map]
      exact hr
    rw [List.getD_eq_getElem _ _ hrm, List.getElem_map, List.getD_eq_getElem _ _ hr]
  have horigrow : ∀ ref, ref < h.length →
      (copy_board h b).1.getD ref [] = h.getD ref [] := by
    intro ref hrefh
    exact list_getD_append_left h _ ref [] hrefh
  refine ⟨rfl, ?_, ?_, ?_⟩
  · intro r c hr
    constructor
    · rw [read_cell_ref, read_cell_ref, hcopyref r hr, hcopyrow r hr,
        horigrow _ (href r hr)]
    · rw [read_cell_ref, read_cell_ref, horigrow _ (href r hr)]
  · intro r c v r2 c2 hr hr2
    rw [read_cell_ref, read_cell_ref, set_cell_ref, hcopyref r hr]
    rw [list_getD_set_ne]
    have h2 := href r2 hr2
    omega
  · intro r c v r2 c2 hr hr2
    rw [read_cell_ref, read_cell_ref, set_cell_ref, hcopyref r2 hr2]
    rw [list_getD_set_ne]
    have h2 := href r hr
    omega

/-- A two-row heap and board for the C9 witness. -/
def heap0 : List (List Int) := [[1, 2], [3, 4]]

/-- The board owning both rows of `heap0`. -/
def board0 : BoardObj := { grid_refs := [0, 1], original_grid := none }

/-- C9 witness: after copying, writing 99 into the copy's cell (0,0) leaves
the original's cell (0,0) untouched. -/
theorem C9_witness :
    read_cell_ref (set_cell_ref (copy_board heap0 board0).1
      (copy_board heap0 board0).2 0 0 99) board0 0 0 =
    read_cell_ref (copy_board heap0 board0).1 board0 0 0 :=
  (C9_copy_independent heap0 board0 (by decide)).2.2.1 0 0 99 0 0 (by decide) (by decide)
